import Mathlib

/-!
Verification development for the escape_roomba reconciliation engine.

This file gives a shallow embedding, in Lean 4, of the parts of the
repository that the verified properties talk about:

* `escape_roomba/async_exclusive.py` — the keyed async mutex
  (`AsyncExclusive.locker` / `is_locked`), embedded as a small labelled
  transition system over per-key future chains;
* `escape_roomba/thread_channel.py` — the `ThreadChannel` reconciler
  (`async_maybe_create_from_origin`, `maybe_attach_to_thread_channel`,
  `_async_origin_updated`, `_async_post_intro`, `_make_message_embed`),
  embedded as pure state transformers returning explicit external-effect
  lists;
* `escape_roomba/thread_manager.py` — the `ThreadManager` variant
  (`_async_locked_message_update`, `_async_check_channel`, the relevance
  filter in `_async_check_message`).

Python strings are embedded as `List Char`; Discord snowflake ids as `Nat`;
fallible fetches as `Option`; every network call the code makes is an
explicit constructor of an effect type, so "no external write happens"
is literally "the effect list is empty".
-/

namespace ER

/-! ## AsyncExclusive (`async_exclusive.py`)

`locker(id)` chains per-key futures: each call captures the currently
installed future for the key (`last_future`), installs a fresh one
(`this_future`), awaits the captured one, runs the with-block, and in a
`finally` deletes its map entry when still current and resolves its own
future.  We embed this as a labelled transition system.  Tasks for a key
are numbered in arrival (= `locker` entry) order.  Each task records the
future it captured at arrival (`lastFut`); `activeFut` is the
`_active_futures` map entry (the index of the most recently installed,
not yet deleted, future).  A task:

* `arrive`s (runs lines 22-24 of the source: capture + install);
* `enter`s its critical section once its captured future is resolved
  (the `await last_future` at line 27 completes; immediately when it
  captured `None`);
* `exit`s (normal return, exception, or cancellation inside the
  with-block: the `finally` at lines 29-32 deletes the current map entry
  and resolves its future);
* or is `cancel`led while still waiting at line 27, in which case the
  with-block never runs but the same `finally` still executes, deleting
  the map entry when current and resolving the task's own future.
-/

inductive TStatus where
  | waiting
  | running
  | done
  | cancelled
deriving DecidableEq

structure LockState where
  arrived : Nat → Nat
  tstat : Nat → Nat → TStatus
  futSet : Nat → Nat → Bool
  lastFut : Nat → Nat → Option Nat
  activeFut : Nat → Option Nat

def initLock : LockState :=
  { arrived := fun _ => 0
    tstat := fun _ _ => TStatus.waiting
    futSet := fun _ _ => false
    lastFut := fun _ _ => none
    activeFut := fun _ => none }

inductive LStep where
  | arrive (k : Nat)
  | enter (k j : Nat)
  | exit (k j : Nat)
  | cancel (k j : Nat)
deriving DecidableEq

/-- Enabledness of a scheduler step against the embedded `AsyncExclusive`
state.  `enter` requires the captured future (if any) to be resolved,
exactly as `await last_future` does; `exit` requires being inside the
with-block; `cancel` models asyncio cancellation landing on the
suspension point at line 27, so it requires the task to be waiting. -/
def lenabled (s : LockState) : LStep → Bool
  | LStep.arrive _ => true
  | LStep.enter k j =>
      decide (j < s.arrived k) && decide (s.tstat k j = TStatus.waiting) &&
        (match s.lastFut k j with
         | none => true
         | some m => s.futSet k m)
  | LStep.exit k j => decide (s.tstat k j = TStatus.running)
  | LStep.cancel k j =>
      decide (j < s.arrived k) && decide (s.tstat k j = TStatus.waiting)

/-- Effect of a step on the embedded state.  `arrive` is lines 22-24
(capture `_active_futures.get(id)`, install a fresh future); `exit` and
`cancel` both run the `finally` at lines 29-32: conditionally delete the
map entry, then `this_future.set_result(True)` — note that `cancel`
resolves the future of a task that never entered, which is precisely
what the source's `finally` does. -/
def applyLStep (s : LockState) : LStep → LockState
  | LStep.arrive k =>
      let n := s.arrived k
      { arrived := fun q => if q = k then n + 1 else s.arrived q
        tstat := s.tstat
        futSet := s.futSet
        lastFut := fun q j => if q = k ∧ j = n then s.activeFut k else s.lastFut q j
        activeFut := fun q => if q = k then some n else s.activeFut q }
  | LStep.enter k j =>
      { s with tstat := fun q i => if q = k ∧ i = j then TStatus.running else s.tstat q i }
  | LStep.exit k j =>
      { s with
        tstat := fun q i => if q = k ∧ i = j then TStatus.done else s.tstat q i
        futSet := fun q i => if q = k ∧ i = j then true else s.futSet q i
        activeFut := fun q => if q = k ∧ s.activeFut k = some j then none else s.activeFut q }
  | LStep.cancel k j =>
      { s with
        tstat := fun q i => if q = k ∧ i = j then TStatus.cancelled else s.tstat q i
        futSet := fun q i => if q = k ∧ i = j then true else s.futSet q i
        activeFut := fun q => if q = k ∧ s.activeFut k = some j then none else s.activeFut q }

def runL (s : LockState) : List LStep → LockState
  | [] => s
  | st :: tr => runL (applyLStep s st) tr

def validB (s : LockState) : List LStep → Bool
  | [] => true
  | st :: tr => lenabled s st && validB (applyLStep s st) tr

def isCancelStep : LStep → Bool
  | LStep.cancel _ _ => true
  | _ => false

def cancelFree (tr : List LStep) : Bool :=
  tr.all (fun st => !isCancelStep st)

def lstepKey : LStep → Nat
  | LStep.arrive k => k
  | LStep.enter k _ => k
  | LStep.exit k _ => k
  | LStep.cancel k _ => k

/-- The per-key slice of the lock state, used to state that operations on
distinct keys neither change nor condition one another. -/
structure KeyView where
  arrivedK : Nat
  tstatK : Nat → TStatus
  futSetK : Nat → Bool
  lastFutK : Nat → Option Nat
  activeK : Option Nat

def keyView (s : LockState) (k : Nat) : KeyView :=
  { arrivedK := s.arrived k
    tstatK := fun j => s.tstat k j
    futSetK := fun j => s.futSet k j
    lastFutK := fun j => s.lastFut k j
    activeK := s.activeFut k }

/-- Embedding of `AsyncExclusive.is_locked` (lines 34-37): `id` is locked
iff the `_active_futures` map has an entry for it. -/
def isLockedL (s : LockState) (k : Nat) : Bool :=
  (s.activeFut k).isSome

/-! ## Decimal numerals

Python renders ids into topic strings with `f'...{mi}...'` (decimal) and
parses them back with `int(s)` / `int(s, 16)`.  We embed decimal
rendering with a fuel-structured recursion so that everything reduces in
the kernel. -/

def digitCh : Nat → Char
  | 0 => '0'
  | 1 => '1'
  | 2 => '2'
  | 3 => '3'
  | 4 => '4'
  | 5 => '5'
  | 6 => '6'
  | 7 => '7'
  | 8 => '8'
  | 9 => '9'
  | _ => '?'

def isDigitCh (c : Char) : Bool := decide ('0' ≤ c) && decide (c ≤ '9')

/-- Hex digits, case-insensitive, as in the `[0-9a-f]+` groups of the
topic regexes compiled with `regex.I`. -/
def isHexCh (c : Char) : Bool :=
  isDigitCh c || (decide ('a' ≤ c) && decide (c ≤ 'f')) ||
    (decide ('A' ≤ c) && decide (c ≤ 'F'))

def digitVal (c : Char) : Nat := c.toNat - 48

def hexDigitVal (c : Char) : Nat :=
  if isDigitCh c then c.toNat - 48
  else if decide ('a' ≤ c) && decide (c ≤ 'f') then c.toNat - 87
  else c.toNat - 55

def decReprAux : Nat → Nat → List Char
  | 0, _ => []
  | fuel + 1, n =>
      if n < 10 then [digitCh n]
      else decReprAux fuel (n / 10) ++ [digitCh (n % 10)]

/-- Decimal representation of a `Nat`, as Python's `str`/f-string. -/
def decRepr (n : Nat) : List Char := decReprAux (n + 1) n

/-- Python `int(s)` for the value: most-significant digit first. -/
def decValOf (l : List Char) : Nat :=
  l.foldl (fun a c => 10 * a + digitVal c) 0

/-- Python `int(s, 16)`. -/
def hexValOf (l : List Char) : Nat :=
  l.foldl (fun a c => 16 * a + hexDigitVal c) 0

/-- Python `int(s)` including its failure mode: `ValueError` (embedded as
`none`) when the string is empty or has a non-decimal character. -/
def decParse (l : List Char) : Option Nat :=
  if !l.isEmpty && l.all isDigitCh then some (decValOf l) else none

/-! ## Naming/Topic codec (`thread_channel.py`)

`_TOPIC_PARSE_REGEX` is
`(?P<prefix>^.*)\[(?:id=)?(?P<cref><#[0-9]+>|[0-9a-f]+)/(?P<mref>[0-9a-f]+)(?P<new>\*?)\][\s.]*$`
compiled case-insensitively.  We embed it as a functional parser:
the greedy `^.*` with backtracking selects the rightmost `[` whose
remainder matches, which `greedyScan` reproduces by preferring matches
found deeper in the list.  The alternation in `cref` is deterministic
(`<` is not a hex character), as is the optional `id=` on any input the
rest of the pattern can accept. -/

def isSpaceCh (c : Char) : Bool :=
  c == ' ' || c == '\n' || c == '\t' || c == '\r' || c == Char.ofNat 160

def isTrailCh (c : Char) : Bool := isSpaceCh c || c == '.'

/-- Parses `(?P<mref>[0-9a-f]+)(?P<new>\*?)\][\s.]*$` after the `/`,
returning the already-parsed `cref` together with `mref` and the
`new`-flag marker. -/
def parseTail (cref : List Char) (r : List Char) : Option (List Char × List Char × Bool) :=
  let ms := r.takeWhile isHexCh
  if ms.isEmpty then none
  else
    match r.dropWhile isHexCh with
    | '*' :: ']' :: rest => if rest.all isTrailCh then some (cref, ms, true) else none
    | ']' :: rest => if rest.all isTrailCh then some (cref, ms, false) else none
    | _ => none

/-- Parses `(?P<cref><#[0-9]+>|[0-9a-f]+)/` and then the tail. -/
def parseCore (l : List Char) : Option (List Char × List Char × Bool) :=
  match l with
  | '<' :: '#' :: r =>
      let ds := r.takeWhile isDigitCh
      if ds.isEmpty then none
      else
        match r.dropWhile isDigitCh with
        | '>' :: '/' :: r2 => parseTail ('<' :: '#' :: (ds ++ ['>'])) r2
        | _ => none
  | _ =>
      let hs := l.takeWhile isHexCh
      if hs.isEmpty then none
      else
        match l.dropWhile isHexCh with
        | '/' :: r2 => parseTail hs r2
        | _ => none

/-- The optional literal `(?:id=)?`, greedy with backtracking. -/
def parseBody (l : List Char) : Option (List Char × List Char × Bool) :=
  match (if l.take 3 = ['i', 'd', '='] then parseCore (l.drop 3) else none) with
  | some r => some r
  | none => parseCore l

/-- The greedy `^.*\[` prefix: the rightmost `[` whose remainder matches
wins.  Returns the matched `prefix` group and the body groups. -/
def greedyScan : List Char → Option (List Char × (List Char × List Char × Bool))
  | [] => none
  | c :: rest =>
      match greedyScan rest with
      | some (h, b) => some (c :: h, b)
      | none =>
          if c == '[' then (parseBody rest).map (fun b => (([] : List Char), b))
          else none

inductive CType where
  | text
  | news
  | voice
  | category
deriving DecidableEq

/-- Embedding of `ThreadChannel.maybe_attach_to_thread_channel`
(lines 82-122): the channel-shape screen (type and `🧵` name marker), the
topic regex, and the id conversions — `int(cref[2:-1])` for a channel
mention, `int(cref, 16)` otherwise, and for the message reference
`int(mref, 16)` when it is at most 16 characters, else `int(mref)`
(whose `ValueError` on a hex letter is caught and yields `None`).
Returns `(origin channel id, origin message id, new_to_author flag)`. -/
def maybeAttachToThreadChannel (ty : CType) (name topic : List Char) :
    Option (Nat × Nat × Bool) :=
  if !(ty == CType.text || ty == CType.news) then none
  else if !(name.head? == some '🧵') then none
  else
    match greedyScan topic with
    | none => none
    | some (_, (cref, mref, fl)) =>
        let ci := match cref with
          | '<' :: '#' :: r => decValOf r.dropLast
          | _ => hexValOf cref
        match (if mref.length ≤ 16 then some (hexValOf mref) else decParse mref) with
        | none => none
        | some mi => some (ci, mi, fl)

/-- Topic written at thread creation, line 193 of `thread_channel.py`:
`f'Thread started by <@.> for [<#.>/.*].'` — ids rendered in decimal,
with the `*` marking `_new_to_author = True`. -/
def creationTopic (uid ci mi : Nat) : List Char :=
  "Thread started by <@".data ++ decRepr uid ++ "> for [<#".data ++ decRepr ci ++
    ">/".data ++ decRepr mi ++ "*].".data

/-- Topic rewritten by `_async_origin_updated` (lines 381-385): the old
topic's `prefix` group (empty when the old topic does not parse) followed
by the bracketed origin reference, the `*` present iff `_new_to_author`. -/
def topicUpdate (head : List Char) (ci mi : Nat) (flag : Bool) : List Char :=
  head ++ "[<#".data ++ decRepr ci ++ ">/".data ++ decRepr mi ++
    (if flag then ['*'] else []) ++ "]".data

/-! Channel-name generation (`async_maybe_create_from_origin`,
lines 154-176).  The input `words` is the text after the lower-casing,
apostrophe strip, `_CHANNEL_CLEANUP_REGEX` substitution and `split()` of
lines 156-157; the loop budget is `_MAX_CHANNEL_NAME_LENGTH = 20`. -/

def mashWords (maxLen : Nat) : List (List Char) → List Char → List Char
  | [], mash => mash
  | w :: ws, mash =>
      let toAdd := (if mash.isEmpty then [] else ['-']) ++ w
      if mash.length + toAdd.length ≤ maxLen then
        mashWords maxLen ws (mash ++ toAdd)
      else
        (if mash.length < maxLen / 2 then mash ++ toAdd.take (maxLen - mash.length)
         else mash) ++ ['…']

/-- The `while name in existing` uniqueness loop (lines 172-176); the
source's unbounded loop always terminates within `existing.length + 1`
probes because the candidate names are pairwise distinct, so the a-priori
fuel below never runs out on the first free candidate. -/
def uniqueNameAux (basic : List Char) (existing : List (List Char)) :
    Nat → Nat → List Char
  | 0, _ => basic
  | fuel + 1, number =>
      let nm := if number ≤ 1 then basic else basic ++ '-' :: decRepr number
      if existing.contains nm then uniqueNameAux basic existing fuel (number + 1)
      else nm

def channelName (words : List (List Char)) (existing : List (List Char)) : List Char :=
  let mash := mashWords 20 words []
  let basic := '🧵' :: (if mash.isEmpty then "thread".data else mash)
  uniqueNameAux basic existing (existing.length + 1) 1

/-! ## Permission overlays

`discord.PermissionOverwrite` restricted to the flags this code ever
touches; a field is `none` when the overwrite is neutral for that flag,
mirroring the tri-state permission model.  Overwrite maps are assoc
lists keyed by entity id (users, roles and the guild's default role all
live in Discord's one snowflake id space); map equality is Python dict
equality, i.e. insensitive to insertion order. -/

structure Overwrite where
  readMessages : Option Bool := none
  sendMessages : Option Bool := none
  readMessageHistory : Option Bool := none
  manageChannels : Option Bool := none
  embedLinks : Option Bool := none
  manageMessages : Option Bool := none
  managePermissions : Option Bool := none
deriving DecidableEq

/-- `PermissionOverwrite.is_empty()`: every flag neutral. -/
def Overwrite.isEmptyOw (o : Overwrite) : Bool :=
  o.readMessages == none && o.sendMessages == none && o.readMessageHistory == none &&
    o.manageChannels == none && o.embedLinks == none && o.manageMessages == none &&
    o.managePermissions == none

abbrev OwMap := List (Nat × Overwrite)

def owLookup (l : OwMap) (k : Nat) : Option Overwrite :=
  (l.find? (fun p => p.1 == k)).map (fun p => p.2)

def owSet (l : OwMap) (k : Nat) (v : Overwrite) : OwMap :=
  match l with
  | [] => [(k, v)]
  | (q, w) :: rest => if q = k then (k, v) :: rest else (q, w) :: owSet rest k v

/-- `collections.defaultdict(PermissionOverwrite, ...)` access-and-update:
a missing key starts from the all-neutral overwrite. -/
def owUpd (l : OwMap) (k : Nat) (f : Overwrite → Overwrite) : OwMap :=
  owSet l k (f ((owLookup l k).getD {}))

/-- Python `dict ==` on overwrite maps: same keys, same values. -/
def dictEqB (l1 l2 : OwMap) : Bool :=
  l1.all (fun p => owLookup l2 p.1 == some p.2) &&
    l2.all (fun p => owLookup l1 p.1 == some p.2)

/-! ## Summary renderer and intro state (`thread_channel.py`) -/

/-- The slice of a `discord.Embed` this code constructs and compares:
`description` plus the author header set by `set_author`.  The
`to_dict()` comparison in `_async_post_intro` strips the server-added
`proxy_icon_url` from the cached embed before comparing; no other
server-added field differs for embeds this code itself produced, so
equality of this record is equality of the compared dicts. -/
structure EmbedV where
  description : List Char
  authorName : Option (List Char) := none
  authorIcon : Option (List Char) := none
deriving DecidableEq

structure IntroMsg where
  author : Nat
  content : List Char
  embedOf : Option EmbedV
  pinned : Bool
deriving DecidableEq

/-- In-memory `ThreadChannel` state together with the mirror of the
thread channel's own externally visible metadata (topic, overwrites)
that the skip-if-unchanged checks read. -/
structure ThreadState where
  originChannelId : Nat
  originMessageId : Nat
  isDeleted : Bool
  newToAuthor : Bool
  cachedIntro : Option (List IntroMsg)
  chTopic : List Char
  chOverwrites : OwMap
deriving DecidableEq

/-- External calls issued by the `ThreadChannel` reconciler.  A claim of
the form "no external write happens" is "this list has no such
constructor". -/
inductive ChEffect where
  | deleteChannel
  | removeOwnReaction
  | sendIntro (content : List Char) (e : Option EmbedV)
  | editIntro (content : List Char) (e : Option EmbedV)
  | pinIntro
  | editChannel (ows : OwMap) (topic : List Char)
deriving DecidableEq

def ChEffect.isEditChannelE : ChEffect → Bool
  | ChEffect.editChannel _ _ => true
  | _ => false

def ChEffect.isEditIntroE : ChEffect → Bool
  | ChEffect.editIntro _ _ => true
  | _ => false

structure AttachV where
  filename : List Char
  proxyUrl : Option (List Char)
  url : List Char
  spoiler : Bool
deriving DecidableEq

structure EmbedLinkV where
  title : List Char
  url : List Char
deriving DecidableEq

/-- Authoritative origin-message state as re-fetched by
`async_refresh_origin`, plus the guild lookups used by the renderer. -/
structure OriginView where
  guildId : Nat
  channelId : Nat
  msgId : Nat
  author : Nat
  authorName : List Char
  authorIcon : List Char
  content : List Char
  attachments : List AttachV
  embeds : List EmbedLinkV
  channelOverwrites : OwMap
  guildChannels : List (Nat × List Char)
  guildRoles : List (Nat × List Char)
  guildMembers : List (Nat × List Char)
deriving DecidableEq

/-- `discord.utils.escape_markdown` on the characters it escapes. -/
def escapeMarkdown (l : List Char) : List Char :=
  (l.map (fun c =>
    if ['\\', '*', '_', '~', '|', Char.ofNat 96].contains c then ['\\', c] else [c])).flatten

/-- Python `str.strip()` on the whitespace present in this code's text. -/
def stripChars (l : List Char) : List Char :=
  ((l.dropWhile isSpaceCh).reverse.dropWhile isSpaceCh).reverse

def lookupNm (l : List (Nat × List Char)) (k : Nat) : Option (List Char) :=
  (l.find? (fun p => p.1 == k)).map (fun p => p.2)

/-- One `regex.sub` pass: scan left to right, replace each
non-overlapping match, never rescanning emitted replacement text. -/
def subPass (f : List Char → Option (List Char × List Char)) :
    Nat → List Char → List Char
  | 0, l => l
  | _ + 1, [] => []
  | fuel + 1, c :: rest =>
      match f (c :: rest) with
      | some (repl, remaining) => repl ++ subPass f fuel remaining
      | none => c :: subPass f fuel rest

/-- `_CHANNEL_MENTION_REGEX` replacement (lines 432-435): a resolvable
`<#id>` becomes a markdown channel link; an unresolvable one is kept. -/
def matchChannelMention (gi : Nat) (chans : List (Nat × List Char)) :
    List Char → Option (List Char × List Char)
  | '<' :: '#' :: r =>
      let ds := r.takeWhile isDigitCh
      if ds.isEmpty then none
      else
        match r.dropWhile isDigitCh with
        | '>' :: rest =>
            let cid := decValOf ds
            match lookupNm chans cid with
            | some nm =>
                some ("[#".data ++ nm ++ "](https://discordapp.com/channels/".data ++
                  decRepr gi ++ "/".data ++ decRepr cid ++ ")".data, rest)
            | none => some ('<' :: '#' :: (ds ++ ['>']), rest)
        | _ => none
  | _ => none

/-- `_ROLE_MENTION_REGEX` replacement (lines 437-439). -/
def matchRoleMention (roles : List (Nat × List Char)) :
    List Char → Option (List Char × List Char)
  | '<' :: '@' :: '&' :: r =>
      let ds := r.takeWhile isDigitCh
      if ds.isEmpty then none
      else
        match r.dropWhile isDigitCh with
        | '>' :: rest =>
            match lookupNm roles (decValOf ds) with
            | some nm => some ("**@".data ++ nm ++ "**".data, rest)
            | none => some ('<' :: '@' :: '&' :: (ds ++ ['>']), rest)
        | _ => none
  | _ => none

/-- `_USER_MENTION_REGEX` (`<@!?id>`) replacement (lines 441-444). -/
def matchUserMention (members : List (Nat × List Char)) :
    List Char → Option (List Char × List Char)
  | '<' :: '@' :: r =>
      let bang := r.take 1 = ['!']
      let r1 := if bang then r.drop 1 else r
      let ds := r1.takeWhile isDigitCh
      if ds.isEmpty then none
      else
        match r1.dropWhile isDigitCh with
        | '>' :: rest =>
            match lookupNm members (decValOf ds) with
            | some nm => some ("**@".data ++ nm ++ "**".data, rest)
            | none =>
                some ('<' :: '@' :: ((if bang then ['!'] else []) ++ ds ++ ['>']), rest)
        | _ => none
  | _ => none

/-- Embedding of `_make_message_embed` (lines 407-452): body text plus a
permanent back-link footer (stripped as a unit), one line per attachment
and per titled link embed, then the three sequential mention-rewriting
passes (channel, role, user), then `set_author`. -/
def makeMessageEmbed (o : OriginView) : EmbedV :=
  let originLink := "https://discordapp.com/channels/".data ++ decRepr o.guildId ++
    "/".data ++ decRepr o.channelId ++ "/".data ++ decRepr o.msgId
  let foot := "🧵 [original message](".data ++ originLink ++ ") in <#".data ++
    decRepr o.channelId ++ "> by <@".data ++ decRepr o.author ++ ">".data
  let d0 := stripChars (o.content ++ "\n \n".data ++ foot)
  let d1 := d0 ++ (o.attachments.map (fun a =>
    "\n📎 [".data ++ escapeMarkdown a.filename ++ "](".data ++ (a.proxyUrl.getD a.url) ++
      ")".data ++ (if a.spoiler then " (spoiler!)".data else []))).flatten
  let d2 := d1 ++ (o.embeds.map (fun e =>
    if !e.title.isEmpty && !e.url.isEmpty then
      "\n🔗 [".data ++ escapeMarkdown e.title ++ "](".data ++ e.url ++ ")".data
    else [])).flatten
  let p1 := subPass (matchChannelMention o.guildId o.guildChannels) d2.length d2
  let p2 := subPass (matchRoleMention o.guildRoles) p1.length p1
  let p3 := subPass (matchUserMention o.guildMembers) p2.length p2
  { description := p3, authorName := some o.authorName, authorIcon := some o.authorIcon }

/-- First cached intro message authored by the bot, as
`next((m for m in self._cached_intro if m.author == me), None)`. -/
def findIntroByMe (me : Nat) (intro : List IntroMsg) : Option IntroMsg :=
  intro.find? (fun m => m.author == me)

def replaceFirstIntro (me : Nat) (c : List Char) (e : Option EmbedV) :
    List IntroMsg → List IntroMsg
  | [] => []
  | m :: rest =>
      if m.author == me then { m with content := c, embedOf := e } :: rest
      else m :: replaceFirstIntro me c e rest

/-- Embedding of `_async_post_intro` (lines 454-512).  With the intro
cache unloaded it returns with no effect ("fetch completion will
resync").  Otherwise it sends a fresh intro when none of ours exists and
the cache is not full (`_CACHE_INTRO_MESSAGES = 2`), or edits ours only
when content or compared embed dict differ, and pins it when unpinned;
`Message.edit` updates the cached message object in place. -/
def asyncPostIntro (me : Nat) (t : ThreadState) (content : List Char)
    (e : Option EmbedV) : ThreadState × List ChEffect :=
  match t.cachedIntro with
  | none => (t, [])
  | some intro =>
      match findIntroByMe me intro with
      | none =>
          if 2 ≤ intro.length then (t, [])
          else
            let sent : IntroMsg :=
              { author := me, content := content, embedOf := e, pinned := false }
            ({ t with cachedIntro := some (intro ++ [sent]) },
             [ChEffect.sendIntro content e])
      | some old =>
          let editEffs := if content ≠ old.content ∨ e ≠ old.embedOf then
              [ChEffect.editIntro content e] else []
          let pinEffs := if !old.pinned then [ChEffect.pinIntro] else []
          let cache := if content ≠ old.content ∨ e ≠ old.embedOf then
              some (replaceFirstIntro me content e intro) else t.cachedIntro
          ({ t with cachedIntro := cache }, editEffs ++ pinEffs)

/-- The repeated guard `self._cached_intro is not None and not
any(m for m in self._cached_intro if m.author != me)` — the cache is
loaded and holds no foreign content.  `None` (not yet loaded) is `false`:
the unloaded cache is never treated as empty. -/
def introLoadedAllMine (me : Nat) : Option (List IntroMsg) → Bool
  | none => false
  | some l => !(l.any (fun m => !(m.author == me)))

/-- The `_new_to_author` update at lines 344-345: the flag flips false —
permanently — once the origin's author is among the reactors. -/
def updFlag (t : ThreadState) (rxUsers : List Nat) (author : Nat) : Bool :=
  if t.newToAuthor && rxUsers.contains author then false else t.newToAuthor

/-- `allowed_users` (lines 340-347): reactors, the bot, and the origin's
author while `_new_to_author` still holds. -/
def allowedUsers (me : Nat) (rxUsers : List Nat) (author : Nat) (flag : Bool) : List Nat :=
  rxUsers ++ [me] ++ (if flag then [author] else [])

/-- The `if not o.is_empty()` filters at lines 373-379. -/
def owNonEmpty (l : OwMap) : OwMap := l.filter (fun p => !p.2.isEmptyOw)

/-- The recomputed access-control overlay of `_async_origin_updated`
(lines 339-379): baseline deep-copied from the origin channel, every
`read_messages` override cleared, the default role denied visibility,
every allowed user granted visibility/read/send, the bot given its
management flags, then empty overwrites dropped (the source also rebuilds
each overwrite from its non-`None` flags, an identity here). -/
def computeOverwrites (me defaultRole : Nat) (o : OriginView) (allowed : List Nat) : OwMap :=
  let cleared := o.channelOverwrites.map (fun p => (p.1, { p.2 with readMessages := none }))
  let ow1 := owUpd cleared defaultRole (fun v => { v with readMessages := some false })
  let ow2 := allowed.foldl (fun acc u => owUpd acc u (fun v =>
    { v with readMessages := some true, sendMessages := some true,
             readMessageHistory := some true })) ow1
  let ow3 := owUpd ow2 me (fun v =>
    { v with manageChannels := some true, embedLinks := some true,
             manageMessages := some true, managePermissions := some true })
  owNonEmpty ow3

/-- The recomputed topic of `_async_origin_updated` (lines 381-385). -/
def computeTopic (oldTopic : List Char) (ci mi : Nat) (flag : Bool) : List Char :=
  let topicHead := match greedyScan oldTopic with
    | some (h, _) => h
    | none => []
  topicUpdate topicHead ci mi flag

/-- Embedding of `_async_origin_updated` (lines 286-405), the decision
procedure run under the caller's per-origin serialization.  `origin` is
`none` when the authoritative re-fetch reported not-found.  Effects are
listed in the order the source awaits them; `thread_channel.edit` does
not update the local channel mirror (the gateway event does, later). -/
def asyncOriginUpdated (me defaultRole : Nat) (t : ThreadState)
    (origin : Option OriginView) (rxUsers : List Nat) : ThreadState × List ChEffect :=
  if t.isDeleted then (t, [])
  else
    match origin with
    | none =>
        if introLoadedAllMine me t.cachedIntro then
          ({ t with isDeleted := true }, [ChEffect.deleteChannel])
        else
          asyncPostIntro me t []
            (some { description := "🧵 The original message was **deleted**!".data })
    | some o =>
        if introLoadedAllMine me t.cachedIntro && !(rxUsers.any (fun u => !(u == me))) then
          ({ t with isDeleted := true },
           [ChEffect.deleteChannel, ChEffect.removeOwnReaction])
        else
          let e := makeMessageEmbed o
          let pi := asyncPostIntro me t [] (some e)
          let flag := updFlag t rxUsers o.author
          let allowed := allowedUsers me rxUsers o.author flag
          let newOw := computeOverwrites me defaultRole o allowed
          let oldOw := owNonEmpty t.chOverwrites
          let newTopic := computeTopic t.chTopic o.channelId o.msgId flag
          let chEffs := if !dictEqB newOw oldOw || newTopic ≠ t.chTopic then
              [ChEffect.editChannel newOw newTopic] else []
          ({ pi.1 with newToAuthor := flag }, pi.2 ++ chEffs)

/-! ## Thread creation (`async_maybe_create_from_origin`, lines 124-240) -/

/-- Origin message as fetched at creation time: author, the `🧵`
reaction's presence, whether the bot is among its reactors (`rx.me`),
the reactor list, the name-mash words of the content, and ids. -/
structure OriginMsgView where
  channelId : Nat
  msgId : Nat
  author : Nat
  rxPresent : Bool
  rxMe : Bool
  rxUsers : List Nat
  contentWords : List (List Char)
deriving DecidableEq

inductive CrEffect where
  | createChannel (name topic : List Char)
  | positionChannels
  | addOwnReaction
  | syncOrigin
deriving DecidableEq

/-- Embedding of `ThreadChannel.async_maybe_create_from_origin`.  The
early returns in order: unknown channel id, message fetch `NotFound`,
the bot's own message (lines 142-144), and no unhandled `🧵` reaction —
`rx_users = rx and not rx.me and [u async for u in rx.users()]` is falsy
when the reaction is absent, already piled on by the bot, or has no
users.  Otherwise a channel is created with the generated name and
topic, positioned (the bulk renumber working around discord.py #5923 is
a single effect here), the `🧵` piled on as insurance against
re-creation, and the origin synced (which posts the intro); the new
`ThreadChannel` starts with `_cached_intro = []` and
`_new_to_author = True`. -/
def asyncMaybeCreateFromOrigin (me : Nat) (channelFound : Bool)
    (msg : Option OriginMsgView) (existingNames : List (List Char)) :
    Option ThreadState × List CrEffect :=
  if !channelFound then (none, [])
  else
    match msg with
    | none => (none, [])
    | some m =>
        if m.author == me then (none, [])
        else
          let rxUsers := if m.rxPresent && !m.rxMe then m.rxUsers else []
          if rxUsers.isEmpty then (none, [])
          else
            let name := channelName m.contentWords existingNames
            let topic := creationTopic (rxUsers.headD 0) m.channelId m.msgId
            let thread : ThreadState :=
              { originChannelId := m.channelId, originMessageId := m.msgId,
                isDeleted := false, newToAuthor := true, cachedIntro := some [],
                chTopic := topic,
                chOverwrites := [] }
            (some thread,
             [CrEffect.createChannel name topic, CrEffect.positionChannels,
              CrEffect.addOwnReaction, CrEffect.syncOrigin])

/-! ## ThreadManager (`thread_manager.py`) -/

/-- Authoritative `🧵`-reaction state of an origin message, as a fetch
reports it: `rxCount` reactors in total, `rxMe` true when the bot is one
of them.  The reaction entry exists iff the count is positive. -/
structure ExtMsg where
  rxCount : Nat
  rxMe : Bool
deriving DecidableEq

/-- `ThreadManager._Thread` as far as the update procedure reads it:
whether `intro_messages` is loaded (`None` vs a list) and whether any
loaded intro message has a foreign author. -/
structure TMThread where
  introLoaded : Bool
  introForeign : Bool
deriving DecidableEq

inductive TMEffect where
  | createThread
  | addOwnReaction
  | deleteThread
  | removeOwnReaction
  | postOrEditIntro
deriving DecidableEq

/-- Embedding of `_async_locked_message_update` (lines 218-276), run
with the per-message lock held.  `ext` is the freshly fetched reaction
state, `t0` the record found in `_thread_by_origin` after acquiring the
lock.  Branches in source order: create-and-pile-on when there is a `🧵`
reaction the bot has not acknowledged (the new `_Thread` starts with
`intro_messages = []` — loaded, no foreign content); quick-undo delete
when the only remaining reactor is the bot and the intro has no foreign
content; then the intro post/edit (whose body is rendered exactly as in
the `ThreadChannel` model's `makeMessageEmbed`). -/
def lockedMessageUpdate (ext : ExtMsg) (t0 : Option TMThread) :
    Option TMThread × List TMEffect :=
  let rxPresent := decide (0 < ext.rxCount)
  let step1 : Option TMThread × List TMEffect :=
    if rxPresent && decide (0 < ext.rxCount) && !ext.rxMe then
      match t0 with
      | none => (some { introLoaded := true, introForeign := false },
          [TMEffect.createThread, TMEffect.addOwnReaction])
      | some t => (some t, [TMEffect.addOwnReaction])
    else (t0, [])
  let t1 := step1.1
  let step2 : Option TMThread × List TMEffect :=
    if rxPresent && decide (ext.rxCount - (if ext.rxMe then 1 else 0) = 0) then
      match t1 with
      | some t =>
          if t.introLoaded && !t.introForeign then
            (none, [TMEffect.deleteThread, TMEffect.removeOwnReaction])
          else (t1, [])
      | none => (t1, [])
    else (t1, [])
  let t2 := step2.1
  let step3 : List TMEffect :=
    match t2 with
    | some t => if t.introLoaded then [TMEffect.postOrEditIntro] else []
    | none => []
  (t2, step1.2 ++ step2.2 ++ step3)

/-- External evolution of the origin message's reaction state under the
effects the update issues: `add_reaction` makes the bot a reactor,
`remove_reaction(rx, me)` withdraws it. -/
def applyTMEffect (ext : ExtMsg) : TMEffect → ExtMsg
  | TMEffect.addOwnReaction =>
      if ext.rxMe then ext else { rxCount := ext.rxCount + 1, rxMe := true }
  | TMEffect.removeOwnReaction =>
      if ext.rxMe then { rxCount := ext.rxCount - 1, rxMe := false } else ext
  | _ => ext

/-- One duplicate "trigger reaction added" notification for the origin:
thanks to the `locker(mi)` serialization (C2) the re-fetch, decision and
effect application of distinct notifications do not interleave, so a
sequence of duplicates is this step iterated. -/
def notifStep (s : ExtMsg × Option TMThread) :
    (ExtMsg × Option TMThread) × List TMEffect :=
  let r := lockedMessageUpdate s.1 s.2
  ((r.2.foldl applyTMEffect s.1, r.1), r.2)

def countCreates (effs : List TMEffect) : Nat :=
  effs.count TMEffect.createThread

/-- Processes `n` duplicate notifications, totalling the number of
thread-channel creations issued. -/
def runNotifs : Nat → (ExtMsg × Option TMThread) → (ExtMsg × Option TMThread) × Nat
  | 0, s => (s, 0)
  | n + 1, s =>
      let r := notifStep s
      let rest := runNotifs n r.1
      (rest.1, countCreates r.2 + rest.2)

/-! ### Channel discovery (`_async_check_channel`, lines 389-425) -/

structure TMRec where
  channelId : Nat
  originCid : Nat
  originMid : Nat
deriving DecidableEq

/-- The manager's two indexes over `_Thread` records, flattened: the
nested `{orig_chan_id: {orig_msg_id: _Thread}}` becomes an assoc list on
the pair. -/
structure ManagerState where
  byOrigin : List ((Nat × Nat) × TMRec)
  byChannel : List (Nat × TMRec)
deriving DecidableEq

def findByOrigin (s : ManagerState) (ci mi : Nat) : Option TMRec :=
  ((s.byOrigin.find? (fun p => p.1 == (ci, mi))).map (fun p => p.2))

def findByChannel (s : ManagerState) (chId : Nat) : Option TMRec :=
  ((s.byChannel.find? (fun p => p.1 == chId)).map (fun p => p.2))

/-- Calls `_async_check_channel` can make; `deleteChannel`/`editChannel`
are issued elsewhere in the manager (`_async_delete_locked_thread`,
intro editing) and never by discovery, which the theorems below make
visible. -/
inductive MgrEffect where
  | fetchIntro
  | fetchMessage
  | deleteChannel
  | editChannel
deriving DecidableEq

/-- Embedding of `_async_check_channel`.  `decoded` is the outcome of the
screen at lines 392-401 (text channel, `🧵` name marker, `_TOPIC_REGEX`
match with its hex/channel-mention id conversions): `none` when the
channel is not topic-tagged as a thread channel.  Under `locker(mi)`:
an already-registered channel is ignored; a distinct channel claiming an
origin that already has a record is logged at error severity and left
unmanaged — no index change, no external call; otherwise the channel is
registered in both indexes and its intro and origin are fetched. -/
def checkChannel (s : ManagerState) (chId : Nat) (decoded : Option (Nat × Nat)) :
    ManagerState × List MgrEffect :=
  match decoded with
  | none => (s, [])
  | some (ci, mi) =>
      if (findByChannel s chId).isSome then (s, [])
      else if (findByOrigin s ci mi).isSome then (s, [])
      else
        let t : TMRec := { channelId := chId, originCid := ci, originMid := mi }
        ({ byOrigin := s.byOrigin ++ [((ci, mi), t)],
           byChannel := s.byChannel ++ [(chId, t)] },
         [MgrEffect.fetchIntro, MgrEffect.fetchMessage])

/-! ### Relevance filter (`_async_check_message`, lines 152-181) -/

/-- Python values that reach `AsyncExclusive.is_locked` from
`_async_check_message`: the source's line 173 passes the *built-in
function* `id`, not the message id `mi`. -/
inductive PyVal where
  | intVal (n : Nat)
  | builtinIdFn
deriving DecidableEq

/-- `is_locked` is a key-membership test on `_active_futures`, whose keys
are always message ids (ints); the built-in function object is never
among them. -/
def isLockedPy (activeKeys : List Nat) : PyVal → Bool
  | PyVal.intVal n => activeKeys.contains n
  | PyVal.builtinIdFn => false

def threadEmojiStr : List Char := "🧵".data

/-- Embedding of the origin-relevance condition at lines 173-177.  The
comment above it (lines 168-172) says a message is relevant when "there
is an existing fetch in progress for the message", but the call the code
makes is `self._message_exclusive.is_locked(id)` — `id` being the Python
built-in — so the first disjunct tests the wrong value and never fires,
regardless of whether `mi` is held. -/
def checkMessageOriginRelevant (activeKeys : List Nat)
    (knownOrigins : List (Nat × Nat)) (ci mi : Nat) (emoji : Option (List Char))
    (inlineReactions : Option (List (List Char))) : Bool :=
  isLockedPy activeKeys PyVal.builtinIdFn ||
    knownOrigins.contains (ci, mi) ||
    ((emoji.getD []) == threadEmojiStr) ||
    (match inlineReactions with
     | none => false
     | some rs => rs.any (fun r => r == threadEmojiStr))

/-! ## Lemmas: the `AsyncExclusive` transition system -/

theorem runL_append (s : LockState) (l1 l2 : List LStep) :
    runL s (l1 ++ l2) = runL (runL s l1) l2 := by
  induction l1 generalizing s with
  | nil => rfl
  | cons st tr ih => simpa [runL] using ih (applyLStep s st)

theorem validB_append (s : LockState) (l1 l2 : List LStep) :
    validB s (l1 ++ l2) = (validB s l1 && validB (runL s l1) l2) := by
  induction l1 generalizing s with
  | nil => simp [validB, runL]
  | cons st tr ih =>
      simp [validB, runL, ih (applyLStep s st), Bool.and_assoc]

/-- Reachable-state invariant of the future chain, for executions in
which no waiter is cancelled. -/
structure Inv2 (s : LockState) : Prop where
  unar : ∀ k j, s.arrived k ≤ j →
    s.tstat k j = TStatus.waiting ∧ s.futSet k j = false ∧ s.lastFut k j = none
  nc : ∀ k j, s.tstat k j ≠ TStatus.cancelled
  fut : ∀ k j, s.futSet k j = true ↔ s.tstat k j = TStatus.done
  lastVal : ∀ k j m, s.lastFut k j = some m → m + 1 = j
  lastNone : ∀ k j, j < s.arrived k → s.lastFut k j = none →
    j = 0 ∨ s.futSet k (j - 1) = true
  act : ∀ k m, s.activeFut k = some m → m + 1 = s.arrived k ∧ s.futSet k m = false
  actNone : ∀ k, s.activeFut k = none → 0 < s.arrived k →
    s.futSet k (s.arrived k - 1) = true
  ord : ∀ k i j, i < j → (s.tstat k j = TStatus.running ∨ s.tstat k j = TStatus.done) →
    s.tstat k i = TStatus.done

theorem inv2_init : Inv2 initLock := by
  constructor <;> simp [initLock]

theorem inv2_arrive (s : LockState) (k0 : Nat) (h : Inv2 s) :
    Inv2 (applyLStep s (LStep.arrive k0)) := by
  constructor
  · intro k j hj
    simp only [applyLStep] at hj ⊢
    by_cases hk : k = k0
    · subst hk
      rw [if_pos rfl] at hj
      have hne : ¬ (k = k ∧ j = s.arrived k) := by omega
      rw [if_neg hne]
      exact h.unar k j (by omega)
    · rw [if_neg hk] at hj
      have hne : ¬ (k = k0 ∧ j = s.arrived k0) := fun hc => hk hc.1
      rw [if_neg hne]
      exact h.unar k j hj
  · intro k j
    simpa [applyLStep] using h.nc k j
  · intro k j
    simpa [applyLStep] using h.fut k j
  · intro k j m hm
    simp only [applyLStep] at hm
    by_cases hc : k = k0 ∧ j = s.arrived k0
    · rw [if_pos hc] at hm
      rw [hc.2]
      exact (h.act k0 m hm).1
    · rw [if_neg hc] at hm
      exact h.lastVal k j m hm
  · intro k j hj hnone
    simp only [applyLStep] at hj hnone ⊢
    by_cases hk : k = k0
    · subst hk
      rw [if_pos rfl] at hj
      by_cases hjn : j = s.arrived k
      · rw [if_pos ⟨rfl, hjn⟩] at hnone
        rcases Nat.eq_zero_or_pos (s.arrived k) with hz | hpos
        · exact Or.inl (by omega)
        · right
          rw [hjn]
          exact h.actNone k hnone hpos
      · have hne : ¬ (k = k ∧ j = s.arrived k) := fun hc => hjn hc.2
        rw [if_neg hne] at hnone
        exact h.lastNone k j (by omega) hnone
    · rw [if_neg hk] at hj
      have hne : ¬ (k = k0 ∧ j = s.arrived k0) := fun hc => hk hc.1
      rw [if_neg hne] at hnone
      exact h.lastNone k j hj hnone
  · intro k m hm
    simp only [applyLStep] at hm ⊢
    by_cases hk : k = k0
    · subst hk
      rw [if_pos rfl] at hm ⊢
      obtain rfl := Option.some.inj hm
      exact ⟨rfl, (h.unar k (s.arrived k) le_rfl).2.1⟩
    · rw [if_neg hk] at hm ⊢
      exact h.act k m hm
  · intro k hm hpos
    simp only [applyLStep] at hm hpos ⊢
    by_cases hk : k = k0
    · subst hk
      rw [if_pos rfl] at hm
      simp at hm
    · rw [if_neg hk] at hm hpos ⊢
      exact h.actNone k hm hpos
  · intro k i j hij hrun
    simp only [applyLStep] at hrun ⊢
    exact h.ord k i j hij hrun

theorem inv2_enter (s : LockState) (k0 j0 : Nat) (h : Inv2 s)
    (he : lenabled s (LStep.enter k0 j0) = true) :
    Inv2 (applyLStep s (LStep.enter k0 j0)) := by
  simp only [lenabled, Bool.and_eq_true, decide_eq_true_eq] at he
  obtain ⟨⟨harr, hwait⟩, hfut⟩ := he
  have hff : s.futSet k0 j0 = false := by
    cases hb : s.futSet k0 j0 with
    | false => rfl
    | true =>
        have hd := (h.fut k0 j0).mp hb
        rw [hwait] at hd
        cases hd
  have hbelow : ∀ i, i < j0 → s.tstat k0 i = TStatus.done := by
    intro i hi
    rcases hm : s.lastFut k0 j0 with _ | m
    · rcases h.lastNone k0 j0 harr hm with hz | hset
      · omega
      · have hd : s.tstat k0 (j0 - 1) = TStatus.done := (h.fut k0 (j0 - 1)).mp hset
        rcases Nat.lt_or_ge i (j0 - 1) with hlt | hge
        · exact h.ord k0 i (j0 - 1) hlt (Or.inr hd)
        · have hieq : i = j0 - 1 := by omega
          rw [hieq]; exact hd
    · rw [hm] at hfut
      have hmv := h.lastVal k0 j0 m hm
      have hd : s.tstat k0 m = TStatus.done := (h.fut k0 m).mp hfut
      rcases Nat.lt_or_ge i m with hlt | hge
      · exact h.ord k0 i m hlt (Or.inr hd)
      · have hieq : i = m := by omega
        rw [hieq]; exact hd
  constructor
  · intro k j hj
    simp only [applyLStep] at hj ⊢
    have hne : ¬ (k = k0 ∧ j = j0) := by
      rintro ⟨hk, hjj⟩
      rw [hk] at hj
      omega
    rw [if_neg hne]
    exact h.unar k j hj
  · intro k j
    simp only [applyLStep]
    by_cases hc : k = k0 ∧ j = j0
    · simp [hc]
    · simpa [hc] using h.nc k j
  · intro k j
    simp only [applyLStep]
    by_cases hc : k = k0 ∧ j = j0
    · rcases hc with ⟨hk, hjj⟩
      simp only [hk, hjj, if_pos (And.intro rfl rfl), hff]
      simp
    · simpa [hc] using h.fut k j
  · intro k j m hm
    simp only [applyLStep] at hm
    exact h.lastVal k j m hm
  · intro k j hj hn
    simp only [applyLStep] at hj hn ⊢
    exact h.lastNone k j hj hn
  · intro k m hm
    simp only [applyLStep] at hm ⊢
    exact h.act k m hm
  · intro k hm hp
    simp only [applyLStep] at hm hp ⊢
    exact h.actNone k hm hp
  · intro k i j hij hrun
    simp only [applyLStep] at hrun ⊢
    by_cases hkj : k = k0 ∧ j = j0
    · rcases hkj with ⟨hk, hjj⟩
      have hi : ¬ (k = k0 ∧ i = j0) := by
        rintro ⟨_, hii⟩
        omega
      rw [if_neg hi]
      simp only [hk]
      exact hbelow i (by omega)
    · rw [if_neg hkj] at hrun
      by_cases hki : k = k0 ∧ i = j0
      · exfalso
        rcases hki with ⟨hk, hii⟩
        have hd := h.ord k i j hij hrun
        rw [hk, hii] at hd
        rw [hwait] at hd
        cases hd
      · rw [if_neg hki]
        exact h.ord k i j hij hrun

theorem inv2_exit (s : LockState) (k0 j0 : Nat) (h : Inv2 s)
    (he : lenabled s (LStep.exit k0 j0) = true) :
    Inv2 (applyLStep s (LStep.exit k0 j0)) := by
  simp only [lenabled, decide_eq_true_eq] at he
  have harr : j0 < s.arrived k0 := by
    by_contra hge
    have hw := (h.unar k0 j0 (by omega)).1
    rw [he] at hw
    cases hw
  constructor
  · intro k j hj
    simp only [applyLStep] at hj ⊢
    have hne : ¬ (k = k0 ∧ j = j0) := by
      rintro ⟨hk, hjj⟩
      rw [hk] at hj
      omega
    simp only [if_neg hne]
    exact h.unar k j hj
  · intro k j
    simp only [applyLStep]
    by_cases hc : k = k0 ∧ j = j0
    · simp [hc]
    · simpa [hc] using h.nc k j
  · intro k j
    simp only [applyLStep]
    by_cases hc : k = k0 ∧ j = j0
    · simp [hc]
    · simpa [hc] using h.fut k j
  · intro k j m hm
    simp only [applyLStep] at hm
    exact h.lastVal k j m hm
  · intro k j hj hn
    simp only [applyLStep] at hj hn ⊢
    rcases h.lastNone k j hj hn with hz | hset
    · exact Or.inl hz
    · right
      by_cases hc : k = k0 ∧ j - 1 = j0
      · rw [if_pos hc]
      · rw [if_neg hc]
        exact hset
  · intro k m hm
    simp only [applyLStep] at hm ⊢
    by_cases hcond : k = k0 ∧ s.activeFut k0 = some j0
    · rw [if_pos hcond] at hm
      simp at hm
    · rw [if_neg hcond] at hm
      obtain ⟨hm1, hm2⟩ := h.act k m hm
      refine ⟨hm1, ?_⟩
      by_cases hc2 : k = k0 ∧ m = j0
      · exfalso
        rcases hc2 with ⟨hk, hmj⟩
        rw [hk, hmj] at hm
        exact hcond ⟨hk, hm⟩
      · rw [if_neg hc2]
        exact hm2
  · intro k hm hpos
    simp only [applyLStep] at hm hpos ⊢
    by_cases hcond : k = k0 ∧ s.activeFut k0 = some j0
    · rcases hcond with ⟨hk, hcur⟩
      have hj := (h.act k0 j0 hcur).1
      have hcc : k = k0 ∧ s.arrived k - 1 = j0 := ⟨hk, by rw [hk]; omega⟩
      rw [if_pos hcc]
    · rw [if_neg hcond] at hm
      have hset := h.actNone k hm hpos
      by_cases hc2 : k = k0 ∧ s.arrived k - 1 = j0
      · rw [if_pos hc2]
      · rw [if_neg hc2]
        exact hset
  · intro k i j hij hrun
    simp only [applyLStep] at hrun ⊢
    by_cases hki : k = k0 ∧ i = j0
    · rw [if_pos hki]
    · rw [if_neg hki]
      by_cases hkj : k = k0 ∧ j = j0
      · rcases hkj with ⟨hk, hjj⟩
        exact h.ord k i j hij (by rw [hk, hjj]; exact Or.inl he)
      · rw [if_neg hkj] at hrun
        exact h.ord k i j hij hrun

theorem inv2_step (s : LockState) (st : LStep) (h : Inv2 s)
    (he : lenabled s st = true) (hnc : isCancelStep st = false) :
    Inv2 (applyLStep s st) := by
  cases st with
  | arrive k => exact inv2_arrive s k h
  | enter k j => exact inv2_enter s k j h he
  | exit k j => exact inv2_exit s k j h he
  | cancel k j => simp [isCancelStep] at hnc

theorem inv2_runL (s : LockState) (tr : List LStep) (h : Inv2 s)
    (hv : validB s tr = true) (hc : cancelFree tr = true) :
    Inv2 (runL s tr) := by
  induction tr generalizing s with
  | nil => exact h
  | cons st tr ih =>
      simp only [validB, Bool.and_eq_true] at hv
      simp only [cancelFree, List.all_cons, Bool.and_eq_true] at hc
      have hnc : isCancelStep st = false := by
        rcases hc.1 with h'
        cases hb : isCancelStep st
        · rfl
        · rw [hb] at h'; cases h'
      exact ih (applyLStep s st) (inv2_step s st h hv.1 hnc) hv.2
        (by simpa [cancelFree] using hc.2)

theorem validB_take (s : LockState) (tr : List LStep) (n : Nat)
    (hv : validB s tr = true) : validB s (tr.take n) = true := by
  have happ := validB_append s (tr.take n) (tr.drop n)
  rw [List.take_append_drop] at happ
  rw [happ] at hv
  simp only [Bool.and_eq_true] at hv
  exact hv.1

theorem cancelFree_take (tr : List LStep) (n : Nat)
    (hc : cancelFree tr = true) : cancelFree (tr.take n) = true := by
  simp only [cancelFree, List.all_eq_true] at hc ⊢
  exact fun st hst => hc st (List.take_subset n tr hst)

/-- Once a task has entered its critical section it never returns to
waiting (it is running or done in every later state of a valid
execution); in particular a running/done task can never be cancelled. -/
theorem entered_persists (s : LockState) (tr : List LStep) (k i : Nat)
    (hv : validB s tr = true)
    (h : s.tstat k i = TStatus.running ∨ s.tstat k i = TStatus.done) :
    (runL s tr).tstat k i = TStatus.running ∨ (runL s tr).tstat k i = TStatus.done := by
  induction tr generalizing s with
  | nil => exact h
  | cons st rest ih =>
      simp only [validB, Bool.and_eq_true] at hv
      simp only [runL]
      refine ih (applyLStep s st) hv.2 ?_
      cases st with
      | arrive k2 => simpa [applyLStep] using h
      | enter k2 j2 =>
          simp only [applyLStep]
          by_cases hc : k = k2 ∧ i = j2
          · exfalso
            have hg := hv.1
            simp only [lenabled, Bool.and_eq_true, decide_eq_true_eq] at hg
            rcases hc with ⟨hk, hi⟩
            have hg12 : s.tstat k i = TStatus.waiting := by
              rw [hk, hi]; exact hg.1.2
            rcases h with h | h <;> (rw [h] at hg12; cases hg12)
          · simp only [if_neg hc]
            exact h
      | exit k2 j2 =>
          simp only [applyLStep]
          by_cases hc : k = k2 ∧ i = j2
          · rw [if_pos hc]
            exact Or.inr rfl
          · simp only [if_neg hc]
            exact h
      | cancel k2 j2 =>
          simp only [applyLStep]
          by_cases hc : k = k2 ∧ i = j2
          · exfalso
            have hg := hv.1
            simp only [lenabled, Bool.and_eq_true, decide_eq_true_eq] at hg
            rcases hc with ⟨hk, hi⟩
            have hg2 : s.tstat k i = TStatus.waiting := by
              rw [hk, hi]; exact hg.2
            rcases h with h | h <;> (rw [h] at hg2; cases hg2)
          · simp only [if_neg hc]
            exact h

/-- A task whose `enter` occurs in a valid trace is running or done at
the end of the trace. -/
theorem entered_of_mem (s : LockState) (tr : List LStep) (k i : Nat)
    (hv : validB s tr = true) (hm : LStep.enter k i ∈ tr) :
    (runL s tr).tstat k i = TStatus.running ∨ (runL s tr).tstat k i = TStatus.done := by
  induction tr generalizing s with
  | nil => cases hm
  | cons st rest ih =>
      simp only [validB, Bool.and_eq_true] at hv
      simp only [runL]
      rcases List.mem_cons.mp hm with heq | hmem
      · subst heq
        refine entered_persists _ rest k i hv.2 ?_
        left
        simp [applyLStep]
      · exact ih (applyLStep s st) hv.2 hmem

theorem mutex_of_inv2 (s : LockState) (h : Inv2 s) (k i j : Nat) (hij : i ≠ j) :
    ¬ (s.tstat k i = TStatus.running ∧ s.tstat k j = TStatus.running) := by
  rintro ⟨hi, hj⟩
  rcases Nat.lt_or_ge i j with hlt | hge
  · have hd := h.ord k i j hlt (Or.inl hj)
    rw [hi] at hd
    cases hd
  · have hlt : j < i := by omega
    have hd := h.ord k j i hlt (Or.inl hi)
    rw [hj] at hd
    cases hd

/-- FIFO: in a cancellation-free valid execution, `enter` events for the
same key occur in arrival order. -/
theorem fifo_of_valid (tr : List LStep) (hv : validB initLock tr = true)
    (hc : cancelFree tr = true) (p q k i j : Nat) (hpq : p < q)
    (hp : tr.get? p = some (LStep.enter k i))
    (hq : tr.get? q = some (LStep.enter k j)) : i < j := by
  have hvt : validB initLock (tr.take q) = true := validB_take _ tr q hv
  have hct : cancelFree (tr.take q) = true := cancelFree_take tr q hc
  have hinv : Inv2 (runL initLock (tr.take q)) :=
    inv2_runL initLock (tr.take q) inv2_init hvt hct
  have hmem : LStep.enter k i ∈ tr.take q := by
    have hg : (tr.take q).get? p = some (LStep.enter k i) := by
      rw [List.get?_take hpq]; exact hp
    exact List.get?_mem hg
  have hstat := entered_of_mem initLock (tr.take q) k i hvt hmem
  have h0 : (tr.drop q).get? 0 = tr.get? q := by
    simpa using List.get?_drop tr q 0
  obtain ⟨st, rest, hsteq⟩ : ∃ st rest, tr.drop q = st :: rest := by
    cases hd : tr.drop q with
    | nil =>
        rw [hd] at h0
        rw [hq] at h0
        cases h0
    | cons st rest => exact ⟨st, rest, rfl⟩
  have hst : st = LStep.enter k j := by
    rw [hsteq, hq] at h0
    exact Option.some.inj h0
  have hvalid2 : validB (runL initLock (tr.take q)) (tr.drop q) = true := by
    have happ := validB_append initLock (tr.take q) (tr.drop q)
    rw [List.take_append_drop] at happ
    rw [happ] at hv
    simp only [Bool.and_eq_true] at hv
    exact hv.2
  rw [hsteq] at hvalid2
  simp only [validB, Bool.and_eq_true] at hvalid2
  have henb := hvalid2.1
  rw [hst] at henb
  simp only [lenabled, Bool.and_eq_true, decide_eq_true_eq] at henb
  have hwait : (runL initLock (tr.take q)).tstat k j = TStatus.waiting := henb.1.2
  rcases Nat.lt_trichotomy i j with h1 | h1 | h1
  · exact h1
  · exfalso
    subst h1
    rcases hstat with hs | hs <;> (rw [hwait] at hs; cases hs)
  · exfalso
    have hd := hinv.ord k j i h1 hstat
    rw [hwait] at hd
    cases hd

/-- Steps keyed elsewhere leave a key's whole state slice untouched. -/
theorem keyViewExt (a b : KeyView) (h1 : a.arrivedK = b.arrivedK)
    (h2 : ∀ j, a.tstatK j = b.tstatK j) (h3 : ∀ j, a.futSetK j = b.futSetK j)
    (h4 : ∀ j, a.lastFutK j = b.lastFutK j) (h5 : a.activeK = b.activeK) : a = b := by
  cases a
  cases b
  simp only [KeyView.mk.injEq]
  exact ⟨h1, funext h2, funext h3, funext h4, h5⟩

theorem keyView_frame (s : LockState) (st : LStep) (k : Nat)
    (hk : lstepKey st ≠ k) : keyView (applyLStep s st) k = keyView s k := by
  cases st with
  | arrive k2 =>
      simp only [lstepKey] at hk
      have hkk : ¬ k = k2 := fun hcc => hk hcc.symm
      refine keyViewExt _ _ ?_ (fun j => rfl) (fun j => rfl) ?_ ?_
      · simp only [keyView, applyLStep]
        rw [if_neg hkk]
      · intro j
        simp only [keyView, applyLStep]
        rw [if_neg (fun hcc => hkk hcc.1)]
      · simp only [keyView, applyLStep]
        rw [if_neg hkk]
  | enter k2 j2 =>
      simp only [lstepKey] at hk
      have hkk : ¬ k = k2 := fun hcc => hk hcc.symm
      refine keyViewExt _ _ rfl ?_ (fun j => rfl) (fun j => rfl) rfl
      intro j
      simp only [keyView, applyLStep]
      rw [if_neg (fun hcc => hkk hcc.1)]
  | exit k2 j2 =>
      simp only [lstepKey] at hk
      have hkk : ¬ k = k2 := fun hcc => hk hcc.symm
      refine keyViewExt _ _ rfl ?_ ?_ (fun j => rfl) ?_
      · intro j
        simp only [keyView, applyLStep]
        rw [if_neg (fun hcc => hkk hcc.1)]
      · intro j
        simp only [keyView, applyLStep]
        rw [if_neg (fun hcc => hkk hcc.1)]
      · simp only [keyView, applyLStep]
        rw [if_neg (fun hcc => hkk hcc.1)]
  | cancel k2 j2 =>
      simp only [lstepKey] at hk
      have hkk : ¬ k = k2 := fun hcc => hk hcc.symm
      refine keyViewExt _ _ rfl ?_ ?_ (fun j => rfl) ?_
      · intro j
        simp only [keyView, applyLStep]
        rw [if_neg (fun hcc => hkk hcc.1)]
      · intro j
        simp only [keyView, applyLStep]
        rw [if_neg (fun hcc => hkk hcc.1)]
      · simp only [keyView, applyLStep]
        rw [if_neg (fun hcc => hkk hcc.1)]

/-- A step's enabledness depends only on its own key's state slice. -/
theorem lenabled_of_keyView (s t : LockState) (st : LStep)
    (h : keyView s (lstepKey st) = keyView t (lstepKey st)) :
    lenabled s st = lenabled t st := by
  have h1 : s.arrived (lstepKey st) = t.arrived (lstepKey st) :=
    congrArg KeyView.arrivedK h
  have h2 : ∀ i, s.tstat (lstepKey st) i = t.tstat (lstepKey st) i :=
    fun i => congrFun (congrArg KeyView.tstatK h) i
  have h3 : ∀ i, s.futSet (lstepKey st) i = t.futSet (lstepKey st) i :=
    fun i => congrFun (congrArg KeyView.futSetK h) i
  have h4 : ∀ i, s.lastFut (lstepKey st) i = t.lastFut (lstepKey st) i :=
    fun i => congrFun (congrArg KeyView.lastFutK h) i
  cases st with
  | arrive k2 => rfl
  | enter k2 j2 =>
      simp only [lstepKey] at h1 h2 h3 h4
      cases hm : t.lastFut k2 j2 with
      | none => simp [lenabled, h1, h2 j2, h4 j2, hm]
      | some m => simp [lenabled, h1, h2 j2, h3 m, h4 j2, hm]
  | exit k2 j2 =>
      simp only [lstepKey] at h2
      simp [lenabled, h2 j2]
  | cancel k2 j2 =>
      simp only [lstepKey] at h1 h2
      simp [lenabled, h1, h2 j2]

/-- C2 (as stated, counterexample): with a cancellation in the schedule,
two tasks for the same key can be inside their `locker(3)` critical
sections at once.  Task 0 enters and holds; tasks 1 and 2 queue; task 1
is cancelled while waiting, its `finally` resolves its future, and task 2
enters while task 0 still runs — falsifying "at most one cooperatively
scheduled task is ever inside a locker(k) critical section at any
instant" on this concrete schedule. -/
theorem locker_mutex_violated_by_cancel :
    validB initLock
      [LStep.arrive 3, LStep.enter 3 0, LStep.arrive 3, LStep.arrive 3,
       LStep.cancel 3 1, LStep.enter 3 2] = true ∧
    (runL initLock
      [LStep.arrive 3, LStep.enter 3 0, LStep.arrive 3, LStep.arrive 3,
       LStep.cancel 3 1, LStep.enter 3 2]).tstat 3 0 = TStatus.running ∧
    (runL initLock
      [LStep.arrive 3, LStep.enter 3 0, LStep.arrive 3, LStep.arrive 3,
       LStep.cancel 3 1, LStep.enter 3 2]).tstat 3 2 = TStatus.running := by
  exact ⟨by decide, by decide, by decide⟩

/-- C2 (amended): in every valid execution of the embedded
`AsyncExclusive.locker` in which no waiting task is cancelled, (1) at
most one task is inside a critical section per key at any instant,
(2) critical sections for the same key are granted in `locker`-entry
(FIFO) order, and (3)-(4) steps for distinct keys neither change another
key's state slice nor influence any step's enabledness, so requests for
distinct keys never serialize against each other. -/
theorem locker_mutex_fifo_cancelfree (tr : List LStep)
    (hv : validB initLock tr = true) (hc : cancelFree tr = true) :
    (∀ k i j, i ≠ j →
      ¬ ((runL initLock tr).tstat k i = TStatus.running ∧
         (runL initLock tr).tstat k j = TStatus.running)) ∧
    (∀ p q k i j, p < q → tr.get? p = some (LStep.enter k i) →
      tr.get? q = some (LStep.enter k j) → i < j) ∧
    (∀ s st k, lstepKey st ≠ k → keyView (applyLStep s st) k = keyView s k) ∧
    (∀ s t st, keyView s (lstepKey st) = keyView t (lstepKey st) →
      lenabled s st = lenabled t st) := by
  refine ⟨?_, ?_, ?_, ?_⟩
  · intro k i j hij
    exact mutex_of_inv2 (runL initLock tr) (inv2_runL initLock tr inv2_init hv hc) k i j hij
  · intro p q k i j hpq hp hq
    exact fifo_of_valid tr hv hc p q k i j hpq hp hq
  · intro s st k hk
    exact keyView_frame s st k hk
  · intro s t st h
    exact lenabled_of_keyView s t st h

/-- Witness for the C2 theorem at a concrete schedule: two tasks on keys
0 and 1 run their critical sections concurrently (distinct keys do not
serialize), and the instantiated mutual-exclusion conclusion holds for
key 0. -/
theorem locker_mutex_fifo_cancelfree_witness :
    validB initLock
      [LStep.arrive 0, LStep.arrive 1, LStep.enter 0 0, LStep.enter 1 0] = true ∧
    cancelFree
      [LStep.arrive 0, LStep.arrive 1, LStep.enter 0 0, LStep.enter 1 0] = true ∧
    (runL initLock
      [LStep.arrive 0, LStep.arrive 1, LStep.enter 0 0, LStep.enter 1 0]).tstat 0 0 =
        TStatus.running ∧
    (runL initLock
      [LStep.arrive 0, LStep.arrive 1, LStep.enter 0 0, LStep.enter 1 0]).tstat 1 0 =
        TStatus.running ∧
    ¬ ((runL initLock
        [LStep.arrive 0, LStep.arrive 1, LStep.enter 0 0, LStep.enter 1 0]).tstat 0 0 =
          TStatus.running ∧
       (runL initLock
        [LStep.arrive 0, LStep.arrive 1, LStep.enter 0 0, LStep.enter 1 0]).tstat 0 1 =
          TStatus.running) := by
  refine ⟨by decide, by decide, by decide, by decide, ?_⟩
  exact (locker_mutex_fifo_cancelfree
    [LStep.arrive 0, LStep.arrive 1, LStep.enter 0 0, LStep.enter 1 0]
    (by decide) (by decide)).1 0 0 1 (by decide)

/-- C3 (code bug): cancelling a *waiting* task corrupts mutual exclusion
for the other users of its key.  On key 9: task 0 enters and holds;
tasks 1 and 2 queue behind it; task 1's acquisition is cancelled, which
makes the source's `finally` resolve task 1's future even though task 1
never reached the head of the chain; task 2's `await` then completes and
task 2 enters while task 0 is still inside — the trace is valid for the
embedded `locker`, the cancelled task indeed never entered, but two
tasks are in the critical section for key 9 at once, contradicting the
claim (and the class docstring's serialization promise). -/
theorem locker_cancel_breaks_waiters :
    validB initLock
      [LStep.arrive 9, LStep.enter 9 0, LStep.arrive 9, LStep.arrive 9,
       LStep.cancel 9 1, LStep.enter 9 2] = true ∧
    (runL initLock
      [LStep.arrive 9, LStep.enter 9 0, LStep.arrive 9, LStep.arrive 9,
       LStep.cancel 9 1, LStep.enter 9 2]).tstat 9 1 = TStatus.cancelled ∧
    (runL initLock
      [LStep.arrive 9, LStep.enter 9 0, LStep.arrive 9, LStep.arrive 9,
       LStep.cancel 9 1, LStep.enter 9 2]).tstat 9 0 = TStatus.running ∧
    (runL initLock
      [LStep.arrive 9, LStep.enter 9 0, LStep.arrive 9, LStep.arrive 9,
       LStep.cancel 9 1, LStep.enter 9 2]).tstat 9 2 = TStatus.running := by
  exact ⟨by decide, by decide, by decide, by decide⟩

/-! ## Lemmas: duplicate-notification idempotence (`thread_manager.py`) -/

theorem notifStep_start (c : Nat) (hc : 0 < c) :
    notifStep ({ rxCount := c, rxMe := false }, none) =
      (({ rxCount := c + 1, rxMe := true },
        some { introLoaded := true, introForeign := false }),
       [TMEffect.createThread, TMEffect.addOwnReaction, TMEffect.postOrEditIntro]) := by
  simp [notifStep, lockedMessageUpdate, applyTMEffect, hc, hc.ne']

theorem notifStep_fix (c : Nat) (hc : 0 < c) :
    notifStep ({ rxCount := c + 1, rxMe := true },
        some { introLoaded := true, introForeign := false }) =
      (({ rxCount := c + 1, rxMe := true },
        some { introLoaded := true, introForeign := false }),
       [TMEffect.postOrEditIntro]) := by
  simp [notifStep, lockedMessageUpdate, applyTMEffect, hc.ne']

theorem runNotifs_fix (c n : Nat) (hc : 0 < c) :
    runNotifs n ({ rxCount := c + 1, rxMe := true },
        some { introLoaded := true, introForeign := false }) =
      (({ rxCount := c + 1, rxMe := true },
        some { introLoaded := true, introForeign := false }), 0) := by
  induction n with
  | zero => rfl
  | succ n ih => simp [runNotifs, notifStep_fix c hc, ih, countCreates]

/-- C1: starting from an origin message carrying a `🧵` reaction from at
least one user, not yet acknowledged by the bot, and with no record for
the origin, any number of duplicate "trigger reaction added"
notifications — serialized by the per-message mutex — creates exactly one
thread channel, and a live record for the origin remains registered
afterwards.  The first notification re-checks the index under the lock,
creates, and piles the bot's own `🧵` onto the origin before releasing;
every later notification re-fetches `rx.me = True` and so never reaches
the creation branch again. -/
theorem thread_create_idempotent (c n : Nat) (hc : 0 < c) :
    (runNotifs (n + 1) ({ rxCount := c, rxMe := false }, none)).2 = 1 ∧
    ((runNotifs (n + 1) ({ rxCount := c, rxMe := false }, none)).1.2).isSome = true := by
  have h1 := notifStep_start c hc
  have h2 := runNotifs_fix c n hc
  constructor
  · simp [runNotifs, h1, h2, countCreates]
  · simp [runNotifs, h1, h2]

/-- Witness for C1 at one user's reaction and three duplicate
notifications. -/
theorem thread_create_idempotent_witness :
    0 < 1 ∧
    (runNotifs 3 ({ rxCount := 1, rxMe := false }, none)).2 = 1 ∧
    ((runNotifs 3 ({ rxCount := 1, rxMe := false }, none)).1.2).isSome = true :=
  ⟨by decide, (thread_create_idempotent 1 2 (by decide)).1,
    (thread_create_idempotent 1 2 (by decide)).2⟩

/-- C8: when discovery meets a second, unregistered channel whose topic
decodes to an origin that already has a record, `_async_check_channel`
only logs the conflict: both indexes are left exactly as they were, the
newer channel stays unregistered (unmanaged), and no external call of
any kind — deletion, edit, or fetch — is issued. -/
theorem duplicate_origin_channel_unmanaged (s : ManagerState) (chId ci mi : Nat)
    (t : TMRec) (h1 : findByChannel s chId = none)
    (h2 : findByOrigin s ci mi = some t) :
    checkChannel s chId (some (ci, mi)) = (s, []) ∧
    findByChannel (checkChannel s chId (some (ci, mi))).1 chId = none := by
  have heq : checkChannel s chId (some (ci, mi)) = (s, []) := by
    simp [checkChannel, h1, h2]
  exact ⟨heq, by rw [heq]; exact h1⟩

/-- Witness for C8: channel 6 claims origin (1, 2), already owned by the
record of channel 5. -/
theorem duplicate_origin_channel_unmanaged_witness :
    findByChannel
      { byOrigin := [((1, 2), { channelId := 5, originCid := 1, originMid := 2 })],
        byChannel := [(5, { channelId := 5, originCid := 1, originMid := 2 })] } 6 = none ∧
    checkChannel
      { byOrigin := [((1, 2), { channelId := 5, originCid := 1, originMid := 2 })],
        byChannel := [(5, { channelId := 5, originCid := 1, originMid := 2 })] }
      6 (some (1, 2)) =
      ({ byOrigin := [((1, 2), { channelId := 5, originCid := 1, originMid := 2 })],
         byChannel := [(5, { channelId := 5, originCid := 1, originMid := 2 })] }, []) := by
  refine ⟨by decide, ?_⟩
  exact (duplicate_origin_channel_unmanaged
    { byOrigin := [((1, 2), { channelId := 5, originCid := 1, originMid := 2 })],
      byChannel := [(5, { channelId := 5, originCid := 1, originMid := 2 })] }
    6 1 2 { channelId := 5, originCid := 1, originMid := 2 }
    (by decide) (by decide)).1

/-- C9 (code bug): with a critical section in flight for message id 42
(`is_held` of the message id is true), and no other relevance condition
holding, the filter still classifies the notification as irrelevant,
because line 173 of `thread_manager.py` passes the Python built-in
function `id` — never a key of the int-keyed `_active_futures` map —
instead of the message id `mi` that the comment above it describes. -/
theorem relevance_ignores_inflight_lock :
    isLockedPy [42] (PyVal.intVal 42) = true ∧
    checkMessageOriginRelevant [42] [] 7 42 none none = false :=
  ⟨by decide, by decide⟩

/-- C10: a message authored by the bot itself never spawns a thread:
`async_maybe_create_from_origin` returns `None` before even reading the
reactions, issuing no external call — regardless of any `🧵` reactions
other users put on it. -/
theorem self_post_never_creates (me : Nat) (m : OriginMsgView)
    (existingNames : List (List Char)) (h : m.author = me) :
    asyncMaybeCreateFromOrigin me true (some m) existingNames = (none, []) := by
  simp [asyncMaybeCreateFromOrigin, h]

/-- Witness for C10: the bot's own message carrying `🧵` reactions from
users 4 and 5, not yet acknowledged — still no creation. -/
theorem self_post_never_creates_witness :
    (1 : Nat) = 1 ∧
    asyncMaybeCreateFromOrigin 1 true
      (some { channelId := 2, msgId := 3, author := 1, rxPresent := true,
              rxMe := false, rxUsers := [4, 5], contentWords := [] }) [] =
      (none, []) :=
  ⟨rfl, self_post_never_creates 1
    { channelId := 2, msgId := 3, author := 1, rxPresent := true,
      rxMe := false, rxUsers := [4, 5], contentWords := [] } [] rfl⟩

/-! ## Lemmas: `_async_post_intro` frame facts -/

theorem asyncPostIntro_isDeleted (me : Nat) (t : ThreadState) (c : List Char)
    (e : Option EmbedV) : (asyncPostIntro me t c e).1.isDeleted = t.isDeleted := by
  rcases hci : t.cachedIntro with _ | intro
  · simp [asyncPostIntro, hci]
  · rcases hf : findIntroByMe me intro with _ | old
    · simp only [asyncPostIntro, hci, hf]
      split_ifs <;> rfl
    · simp only [asyncPostIntro, hci, hf]

theorem asyncPostIntro_no_delete (me : Nat) (t : ThreadState) (c : List Char)
    (e : Option EmbedV) : ChEffect.deleteChannel ∉ (asyncPostIntro me t c e).2 := by
  rcases hci : t.cachedIntro with _ | intro
  · simp [asyncPostIntro, hci]
  · rcases hf : findIntroByMe me intro with _ | old
    · simp only [asyncPostIntro, hci, hf]
      split_ifs <;> simp
    · simp only [asyncPostIntro, hci, hf]
      split_ifs <;> simp

/-- C4: for a live thread whose loaded intro cache has no content from
anyone but the bot, an origin that still exists but has no non-bot `🧵`
reactor left makes `_async_origin_updated` delete the thread channel,
mark the record deleted, and withdraw the bot's own `🧵` from the origin
message — the symmetric undo of creation. -/
theorem empty_unreacted_thread_deleted (me dr : Nat) (t : ThreadState)
    (o : OriginView) (rxUsers : List Nat)
    (hnd : t.isDeleted = false)
    (hmine : introLoadedAllMine me t.cachedIntro = true)
    (hrx : rxUsers.any (fun u => !(u == me)) = false) :
    asyncOriginUpdated me dr t (some o) rxUsers =
      ({ t with isDeleted := true },
       [ChEffect.deleteChannel, ChEffect.removeOwnReaction]) := by
  simp [asyncOriginUpdated, hnd, hmine, hrx]

/-- Witness for C4: intro holds only the bot's pinned post, the sole
remaining reactor is the bot itself. -/
theorem empty_unreacted_thread_deleted_witness :
    introLoadedAllMine 1
      (some [{ author := 1, content := [], embedOf := none, pinned := true }]) = true ∧
    asyncOriginUpdated 1 0
      { originChannelId := 2, originMessageId := 3, isDeleted := false,
        newToAuthor := true,
        cachedIntro := some [{ author := 1, content := [], embedOf := none, pinned := true }],
        chTopic := [], chOverwrites := [] }
      (some { guildId := 0, channelId := 2, msgId := 3, author := 7,
              authorName := [], authorIcon := [], content := [], attachments := [],
              embeds := [], channelOverwrites := [], guildChannels := [],
              guildRoles := [], guildMembers := [] })
      [1] =
      ({ originChannelId := 2, originMessageId := 3, isDeleted := true,
         newToAuthor := true,
         cachedIntro := some [{ author := 1, content := [], embedOf := none, pinned := true }],
         chTopic := [], chOverwrites := [] },
       [ChEffect.deleteChannel, ChEffect.removeOwnReaction]) := by
  refine ⟨by decide, ?_⟩
  exact empty_unreacted_thread_deleted 1 0
    { originChannelId := 2, originMessageId := 3, isDeleted := false,
      newToAuthor := true,
      cachedIntro := some [{ author := 1, content := [], embedOf := none, pinned := true }],
      chTopic := [], chOverwrites := [] }
    { guildId := 0, channelId := 2, msgId := 3, author := 7,
      authorName := [], authorIcon := [], content := [], attachments := [],
      embeds := [], channelOverwrites := [], guildChannels := [],
      guildRoles := [], guildMembers := [] }
    [1] rfl (by decide) (by decide)

/-- C5 (as stated, counterexample): with the intro cache not yet loaded
(`None`) and the origin gone, the channel is kept — but no origin-removed
marker is rendered anywhere: `_async_post_intro` returns at line 462-463
and the effect list is empty, contradicting "an origin-removed marker is
rendered into the intro". -/
theorem origin_gone_unloaded_no_render :
    (asyncOriginUpdated 1 0
      { originChannelId := 2, originMessageId := 3, isDeleted := false,
        newToAuthor := true, cachedIntro := none, chTopic := [],
        chOverwrites := [] } none []).1.isDeleted = false ∧
    (asyncOriginUpdated 1 0
      { originChannelId := 2, originMessageId := 3, isDeleted := false,
        newToAuthor := true, cachedIntro := none, chTopic := [],
        chOverwrites := [] } none []).2 = [] :=
  ⟨by decide, by decide⟩

/-- C5 (amended): when the origin fetch reports not-found, the record is
marked deleted exactly when the cache is loaded and all-bot-authored
(the unloaded cache is never treated as empty); a delete-channel call is
issued exactly in that case; an unloaded cache leaves the state and the
outside world untouched (the resync after the intro fetch catches up);
and a loaded cache with foreign content keeps the channel and hands the
origin-removed marker to the intro poster (which writes it only if it
differs from the current intro). -/
theorem origin_gone_decision (me dr : Nat) (t : ThreadState) (rxUsers : List Nat)
    (hnd : t.isDeleted = false) :
    ((asyncOriginUpdated me dr t none rxUsers).1.isDeleted =
      introLoadedAllMine me t.cachedIntro) ∧
    ((ChEffect.deleteChannel ∈ (asyncOriginUpdated me dr t none rxUsers).2) ↔
      introLoadedAllMine me t.cachedIntro = true) ∧
    (t.cachedIntro = none → asyncOriginUpdated me dr t none rxUsers = (t, [])) ∧
    (∀ l, t.cachedIntro = some l → l.any (fun m => !(m.author == me)) = true →
      (asyncOriginUpdated me dr t none rxUsers).1.isDeleted = false ∧
      asyncOriginUpdated me dr t none rxUsers =
        asyncPostIntro me t []
          (some { description := "🧵 The original message was **deleted**!".data,
                  authorName := none, authorIcon := none })) := by
  cases hb : introLoadedAllMine me t.cachedIntro with
  | true =>
      have hres : asyncOriginUpdated me dr t none rxUsers =
          ({ t with isDeleted := true }, [ChEffect.deleteChannel]) := by
        simp [asyncOriginUpdated, hnd, hb]
      refine ⟨by rw [hres], by rw [hres]; simp, ?_, ?_⟩
      · intro hcn
        rw [hcn] at hb
        simp [introLoadedAllMine] at hb
      · intro l hcl hfor
        rw [hcl] at hb
        simp only [introLoadedAllMine, hfor] at hb
        cases hb
  | false =>
      have hres : asyncOriginUpdated me dr t none rxUsers =
          asyncPostIntro me t []
            (some { description := "🧵 The original message was **deleted**!".data,
                    authorName := none, authorIcon := none }) := by
        simp [asyncOriginUpdated, hnd, hb]
      refine ⟨?_, ?_, ?_, ?_⟩
      · rw [hres, asyncPostIntro_isDeleted, hnd]
      · rw [hres]
        simp only [iff_false, Bool.false_eq_true]
        exact fun hmem => asyncPostIntro_no_delete me t _ _ hmem
      · intro hcn
        rw [hres]
        simp [asyncPostIntro, hcn]
      · intro l hcl hfor
        exact ⟨by rw [hres, asyncPostIntro_isDeleted, hnd], hres⟩

/-- Witness for C5 at a loaded cache with a foreign message: the channel
is kept and the decision agrees with the loaded-all-mine test. -/
theorem origin_gone_decision_witness :
    (asyncOriginUpdated 1 0
      { originChannelId := 2, originMessageId := 3, isDeleted := false,
        newToAuthor := true,
        cachedIntro := some [{ author := 4, content := [], embedOf := none, pinned := false }],
        chTopic := [], chOverwrites := [] } none []).1.isDeleted =
      introLoadedAllMine 1
        (some [{ author := 4, content := [], embedOf := none, pinned := false }]) :=
  (origin_gone_decision 1 0
    { originChannelId := 2, originMessageId := 3, isDeleted := false,
      newToAuthor := true,
      cachedIntro := some [{ author := 4, content := [], embedOf := none, pinned := false }],
      chTopic := [], chOverwrites := [] } [] rfl).1

/-! ## Lemmas: which effect lists contain intro edits -/

theorem any_editIntro_pin (b : Bool) :
    (if b = true then [ChEffect.pinIntro] else []).any ChEffect.isEditIntroE = false := by
  cases b <;> rfl

theorem any_editIntro_editChannel (b : Bool) (ows : OwMap) (tp : List Char) :
    (if b = true then [ChEffect.editChannel ows tp] else []).any
      ChEffect.isEditIntroE = false := by
  cases b <;> rfl

theorem any_editIntro_editIntro (p : Prop) [Decidable p] (c : List Char)
    (e : Option EmbedV) :
    (if p then [ChEffect.editIntro c e] else []).any ChEffect.isEditIntroE =
      decide p := by
  split_ifs with h <;> simp [h, ChEffect.isEditIntroE]

/-- C7: for a live thread that stays alive (a foreign reactor exists) and
whose loaded intro cache holds a bot-authored intro message, the decision
procedure re-renders overlay, topic and intro deterministically (they are
pure functions of the fetched origin state), and: a channel edit is
issued iff the recomputed non-empty overlay or topic differs from the
channel's current ones; an intro message edit is issued iff the
recomputed content/embed differ from the cached intro message; and when
overlay, topic, content and embed all equal the current state and the
intro is already pinned, no external call at all is made. -/
theorem render_skip_iff_changed (me dr : Nat) (t : ThreadState) (o : OriginView)
    (rxUsers : List Nat) (l : List IntroMsg) (old : IntroMsg)
    (hnd : t.isDeleted = false)
    (hci : t.cachedIntro = some l)
    (hcont : rxUsers.any (fun u => !(u == me)) = true)
    (hold : findIntroByMe me l = some old) :
    ((asyncOriginUpdated me dr t (some o) rxUsers).2.any ChEffect.isEditChannelE = true ↔
      ¬ (dictEqB (computeOverwrites me dr o
            (allowedUsers me rxUsers o.author (updFlag t rxUsers o.author)))
          (owNonEmpty t.chOverwrites) = true ∧
         computeTopic t.chTopic o.channelId o.msgId (updFlag t rxUsers o.author) =
           t.chTopic)) ∧
    ((asyncOriginUpdated me dr t (some o) rxUsers).2.any ChEffect.isEditIntroE = true ↔
      (([] : List Char) ≠ old.content ∨ some (makeMessageEmbed o) ≠ old.embedOf)) ∧
    (dictEqB (computeOverwrites me dr o
        (allowedUsers me rxUsers o.author (updFlag t rxUsers o.author)))
      (owNonEmpty t.chOverwrites) = true →
     computeTopic t.chTopic o.channelId o.msgId (updFlag t rxUsers o.author) = t.chTopic →
     old.content = [] → old.embedOf = some (makeMessageEmbed o) → old.pinned = true →
     (asyncOriginUpdated me dr t (some o) rxUsers).2 = []) := by
  have hdel : (introLoadedAllMine me t.cachedIntro &&
      !(rxUsers.any (fun u => !(u == me)))) = false := by
    rw [hcont]; simp
  have heffs : (asyncOriginUpdated me dr t (some o) rxUsers).2 =
      (asyncPostIntro me t [] (some (makeMessageEmbed o))).2 ++
      (if !dictEqB (computeOverwrites me dr o
            (allowedUsers me rxUsers o.author (updFlag t rxUsers o.author)))
          (owNonEmpty t.chOverwrites) ||
          computeTopic t.chTopic o.channelId o.msgId (updFlag t rxUsers o.author) ≠ t.chTopic
       then [ChEffect.editChannel
              (computeOverwrites me dr o
                (allowedUsers me rxUsers o.author (updFlag t rxUsers o.author)))
              (computeTopic t.chTopic o.channelId o.msgId (updFlag t rxUsers o.author))]
       else []) := by
    simp [asyncOriginUpdated, hnd, hdel]
  have hpi : (asyncPostIntro me t [] (some (makeMessageEmbed o))).2 =
      (if ([] : List Char) ≠ old.content ∨ some (makeMessageEmbed o) ≠ old.embedOf
       then [ChEffect.editIntro [] (some (makeMessageEmbed o))] else []) ++
      (if !old.pinned then [ChEffect.pinIntro] else []) := by
    simp [asyncPostIntro, hci, hold]
  rw [heffs, hpi]
  refine ⟨?_, ?_, ?_⟩
  · by_cases hd : dictEqB (computeOverwrites me dr o
        (allowedUsers me rxUsers o.author (updFlag t rxUsers o.author)))
        (owNonEmpty t.chOverwrites) = true <;>
    by_cases ht : computeTopic t.chTopic o.channelId o.msgId (updFlag t rxUsers o.author) =
        t.chTopic <;>
    by_cases h1 : (([] : List Char) ≠ old.content ∨
        some (makeMessageEmbed o) ≠ old.embedOf) <;>
    by_cases h2 : old.pinned = true <;>
    simp [hd, ht, h1, h2, ChEffect.isEditChannelE, ChEffect.isEditIntroE]
  · rw [List.any_append, List.any_append, any_editIntro_editIntro,
        any_editIntro_pin, any_editIntro_editChannel]
    simp
  · intro hd ht hc he hp
    simp [hd, ht, hc, he, hp]

/-- Witness for C7 at a state whose overlay, topic and intro already
equal the recomputed render: the reconciler issues no external call. -/
theorem render_skip_iff_changed_witness :
    ([3].any (fun u => !(u == (1 : Nat))) = true) ∧
    (asyncOriginUpdated 1 0
      (ThreadState.mk 2 3 false false
        (some [IntroMsg.mk 1 []
          (some (makeMessageEmbed (OriginView.mk 5 2 3 2 "a".data "i".data
            "hi".data [] [] [] [] [] []))) true])
        "[<#2>/3]".data
        (computeOverwrites 1 0
          (OriginView.mk 5 2 3 2 "a".data "i".data "hi".data [] [] [] [] [] [])
          (allowedUsers 1 [3] 2 false)))
      (some (OriginView.mk 5 2 3 2 "a".data "i".data "hi".data [] [] [] [] [] []))
      [3]).2 = [] := by
  refine ⟨by decide, ?_⟩
  exact (render_skip_iff_changed 1 0
    (ThreadState.mk 2 3 false false
      (some [IntroMsg.mk 1 []
        (some (makeMessageEmbed (OriginView.mk 5 2 3 2 "a".data "i".data
          "hi".data [] [] [] [] [] []))) true])
      "[<#2>/3]".data
      (computeOverwrites 1 0
        (OriginView.mk 5 2 3 2 "a".data "i".data "hi".data [] [] [] [] [] [])
        (allowedUsers 1 [3] 2 false)))
    (OriginView.mk 5 2 3 2 "a".data "i".data "hi".data [] [] [] [] [] [])
    [3]
    [IntroMsg.mk 1 []
      (some (makeMessageEmbed (OriginView.mk 5 2 3 2 "a".data "i".data
        "hi".data [] [] [] [] [] []))) true]
    (IntroMsg.mk 1 []
      (some (makeMessageEmbed (OriginView.mk 5 2 3 2 "a".data "i".data
        "hi".data [] [] [] [] [] []))) true)
    rfl rfl (by decide) (by decide)).2.2
    (by decide) (by decide) rfl rfl rfl

/-! ## Lemmas: decimal numerals and the topic codec -/

theorem digitCh_spec (d : Nat) (h : d < 10) :
    isDigitCh (digitCh d) = true ∧ digitVal (digitCh d) = d := by
  interval_cases d <;> exact ⟨by decide, by decide⟩

theorem decReprAux_spec (fuel : Nat) : ∀ n, n < fuel →
    (∀ c ∈ decReprAux fuel n, isDigitCh c = true) ∧ decReprAux fuel n ≠ [] ∧
    (∀ a, List.foldl (fun x c => 10 * x + digitVal c) a (decReprAux fuel n) =
      a * 10 ^ (decReprAux fuel n).length + n) := by
  induction fuel with
  | zero => intro n h; omega
  | succ fuel ih =>
      intro n h
      by_cases h10 : n < 10
      · simp only [decReprAux, if_pos h10]
        refine ⟨?_, by simp, ?_⟩
        · intro c hc
          simp only [List.mem_singleton] at hc
          rw [hc]
          exact (digitCh_spec n h10).1
        · intro a
          simp only [List.foldl, List.length_singleton, pow_one,
            (digitCh_spec n h10).2]
          omega
      · have hn10 : n / 10 < fuel := by
          have hlt : n / 10 < n := Nat.div_lt_self (by omega) (by omega)
          omega
        obtain ⟨hdig, hne, hval⟩ := ih (n / 10) hn10
        simp only [decReprAux, if_neg h10]
        refine ⟨?_, by simp, ?_⟩
        · intro c hc
          rcases List.mem_append.mp hc with hc | hc
          · exact hdig c hc
          · simp only [List.mem_singleton] at hc
            rw [hc]
            exact (digitCh_spec (n % 10) (Nat.mod_lt _ (by omega))).1
        · intro a
          rw [List.foldl_append]
          simp only [List.foldl, (digitCh_spec (n % 10) (Nat.mod_lt _ (by omega))).2,
            hval a, List.length_append, List.length_singleton]
          have hdm := Nat.div_add_mod n 10
          calc 10 * (a * 10 ^ (decReprAux fuel (n / 10)).length + n / 10) + n % 10
              = a * (10 ^ (decReprAux fuel (n / 10)).length * 10) +
                (10 * (n / 10) + n % 10) := by ring
            _ = a * 10 ^ ((decReprAux fuel (n / 10)).length + 1) + n := by
                rw [pow_succ]; omega

theorem decRepr_digits (n : Nat) : ∀ c ∈ decRepr n, isDigitCh c = true :=
  fun c hc => ((decReprAux_spec (n + 1) n (by omega)).1) c hc

theorem decRepr_ne_nil (n : Nat) : decRepr n ≠ [] :=
  (decReprAux_spec (n + 1) n (by omega)).2.1

theorem decValOf_decRepr (n : Nat) : decValOf (decRepr n) = n := by
  have h := (decReprAux_spec (n + 1) n (by omega)).2.2 0
  simpa [decValOf, decRepr] using h

theorem decParse_decRepr (n : Nat) : decParse (decRepr n) = some n := by
  have h1 : (decRepr n).isEmpty = false := by
    cases hd : decRepr n with
    | nil => exact absurd hd (decRepr_ne_nil n)
    | cons a l => rfl
  have h2 : (decRepr n).all isDigitCh = true :=
    List.all_eq_true.mpr (fun c hc => decRepr_digits n c hc)
  simp [decParse, h1, h2, decValOf_decRepr n]

theorem bool_fn_ne (p : Char → Bool) (c x : Char) (hc : p c = true)
    (hx : p x = false) : c ≠ x := by
  intro he
  rw [he, hx] at hc
  cases hc

theorem isDigitCh_hex (c : Char) (h : isDigitCh c = true) : isHexCh c = true := by
  simp [isHexCh, h]

theorem takeWhile_split (p : Char → Bool) (l1 : List Char) (c : Char) (l2 : List Char)
    (h1 : ∀ a ∈ l1, p a = true) (hc : p c = false) :
    (l1 ++ c :: l2).takeWhile p = l1 ∧ (l1 ++ c :: l2).dropWhile p = c :: l2 := by
  induction l1 with
  | nil => simp [List.takeWhile_cons, List.dropWhile_cons, hc]
  | cons a l1 ih =>
      have ha : p a = true := h1 a (by simp)
      have ih2 := ih (fun b hb => h1 b (by simp [hb]))
      simp [List.takeWhile_cons, List.dropWhile_cons, ha, ih2.1, ih2.2]

theorem greedyScan_none (l : List Char) (h : '[' ∉ l) : greedyScan l = none := by
  induction l with
  | nil => rfl
  | cons c rest ih =>
      have hc : ¬ (c = '[') := fun he => h (by simp [he])
      have hr : '[' ∉ rest := fun hm => h (by simp [hm])
      simp [greedyScan, ih hr, hc]

theorem greedyScan_bracket (body : List Char) (r : List Char × List Char × Bool)
    (hb : '[' ∉ body) (hp : parseBody body = some r) :
    greedyScan ('[' :: body) = some ([], r) := by
  simp [greedyScan, greedyScan_none body hb, hp]

theorem greedyScan_append (hd rest : List Char) (h2 : List Char)
    (b : List Char × List Char × Bool)
    (hsc : greedyScan rest = some (h2, b)) :
    greedyScan (hd ++ rest) = some (hd ++ h2, b) := by
  induction hd with
  | nil => simpa using hsc
  | cons c hd ih => simp [greedyScan, ih]

theorem parseBody_encoded_true (ci mi : Nat) (trail : List Char)
    (htrail : trail.all isTrailCh = true) :
    parseBody ('<' :: '#' :: (decRepr ci ++ '>' :: '/' ::
        (decRepr mi ++ '*' :: ']' :: trail))) =
      some ('<' :: '#' :: (decRepr ci ++ ['>']), decRepr mi, true) := by
  have hci := decRepr_digits ci
  have hmhex : ∀ a ∈ decRepr mi, isHexCh a = true :=
    fun a ha => isDigitCh_hex a (decRepr_digits mi a ha)
  have hsplit1 := takeWhile_split isDigitCh (decRepr ci) '>'
    ('/' :: (decRepr mi ++ '*' :: ']' :: trail)) hci (by decide)
  have hsplit2 := takeWhile_split isHexCh (decRepr mi) '*' (']' :: trail)
    hmhex (by decide)
  simp only [parseBody, parseCore, parseTail, hsplit1.1, hsplit1.2,
    hsplit2.1, hsplit2.2]
  simp [List.take, htrail, decRepr_ne_nil ci, decRepr_ne_nil mi]

theorem parseBody_encoded_false (ci mi : Nat) (trail : List Char)
    (htrail : trail.all isTrailCh = true) :
    parseBody ('<' :: '#' :: (decRepr ci ++ '>' :: '/' ::
        (decRepr mi ++ ']' :: trail))) =
      some ('<' :: '#' :: (decRepr ci ++ ['>']), decRepr mi, false) := by
  have hci := decRepr_digits ci
  have hmhex : ∀ a ∈ decRepr mi, isHexCh a = true :=
    fun a ha => isDigitCh_hex a (decRepr_digits mi a ha)
  have hsplit1 := takeWhile_split isDigitCh (decRepr ci) '>'
    ('/' :: (decRepr mi ++ ']' :: trail)) hci (by decide)
  have hsplit2 := takeWhile_split isHexCh (decRepr mi) ']' trail
    hmhex (by decide)
  simp only [parseBody, parseCore, parseTail, hsplit1.1, hsplit1.2,
    hsplit2.1, hsplit2.2]
  simp [List.take, htrail, decRepr_ne_nil ci, decRepr_ne_nil mi]

theorem not_bracket_digits (n : Nat) : '[' ∉ decRepr n := by
  intro hm
  have hd := decRepr_digits n '[' hm
  exact absurd hd (by decide)

theorem not_bracket_trail (trail : List Char) (h : trail.all isTrailCh = true) :
    '[' ∉ trail := by
  intro hm
  have ht := List.all_eq_true.mp h '[' hm
  exact absurd ht (by decide)

theorem not_bracket_body (ci mi : Nat) (tl : List Char) (htl : '[' ∉ tl) :
    '[' ∉ ('<' :: '#' :: (decRepr ci ++ '>' :: '/' :: (decRepr mi ++ tl))) := by
  intro hm
  rcases List.mem_cons.mp hm with h | hm
  · exact absurd h (by decide)
  rcases List.mem_cons.mp hm with h | hm
  · exact absurd h (by decide)
  rcases List.mem_append.mp hm with h | hm
  · exact not_bracket_digits ci h
  rcases List.mem_cons.mp hm with h | hm
  · exact absurd h (by decide)
  rcases List.mem_cons.mp hm with h | hm
  · exact absurd h (by decide)
  rcases List.mem_append.mp hm with h | hm
  · exact not_bracket_digits mi h
  exact htl hm

theorem name_head_of_uniqueAux (c : Char) (rest : List Char)
    (existing : List (List Char)) :
    ∀ fuel k, (uniqueNameAux (c :: rest) existing fuel k).head? = some c := by
  intro fuel
  induction fuel with
  | zero => intro k; rfl
  | succ fuel ih =>
      intro k
      simp only [uniqueNameAux]
      by_cases hk : k ≤ 1
      · simp only [if_pos hk]
        by_cases hcont : (c :: rest) ∈ existing
        · simp [hcont, ih]
        · simp [hcont]
      · simp only [if_neg hk]
        by_cases hcont : (c :: (rest ++ '-' :: decRepr k)) ∈ existing
        · simp [hcont, ih]
        · simp [hcont]

theorem channelName_head (words existing : List (List Char)) :
    (channelName words existing).head? = some '🧵' := by
  simp only [channelName]
  exact name_head_of_uniqueAux '🧵' _ existing _ 1

theorem attach_encoded_true (nm hd trail : List Char) (ci mi : Nat)
    (hname : nm.head? = some '🧵') (hhd : '[' ∉ hd)
    (hmi : 16 < (decRepr mi).length) (htrail : trail.all isTrailCh = true) :
    maybeAttachToThreadChannel CType.text nm
      (hd ++ '[' :: '<' :: '#' :: (decRepr ci ++ '>' :: '/' ::
        (decRepr mi ++ '*' :: ']' :: trail))) = some (ci, mi, true) := by
  have htl : '[' ∉ ('*' :: ']' :: trail) := by
    intro hm
    rcases List.mem_cons.mp hm with h | hm
    · exact absurd h (by decide)
    rcases List.mem_cons.mp hm with h | hm
    · exact absurd h (by decide)
    exact not_bracket_trail trail htrail hm
  have hbody := not_bracket_body ci mi ('*' :: ']' :: trail) htl
  have hparse := parseBody_encoded_true ci mi trail htrail
  have hbr := greedyScan_bracket _ _ hbody hparse
  have hscan := greedyScan_append hd _ _ _ hbr
  rw [List.append_nil] at hscan
  have hlen : ¬ (decRepr mi).length ≤ 16 := by omega
  simp [maybeAttachToThreadChannel, hname, hscan, List.dropLast_concat,
    decValOf_decRepr, hlen, decParse_decRepr]

theorem attach_encoded_false (nm hd trail : List Char) (ci mi : Nat)
    (hname : nm.head? = some '🧵') (hhd : '[' ∉ hd)
    (hmi : 16 < (decRepr mi).length) (htrail : trail.all isTrailCh = true) :
    maybeAttachToThreadChannel CType.text nm
      (hd ++ '[' :: '<' :: '#' :: (decRepr ci ++ '>' :: '/' ::
        (decRepr mi ++ ']' :: trail))) = some (ci, mi, false) := by
  have htl : '[' ∉ (']' :: trail) := by
    intro hm
    rcases List.mem_cons.mp hm with h | hm
    · exact absurd h (by decide)
    exact not_bracket_trail trail htrail hm
  have hbody := not_bracket_body ci mi (']' :: trail) htl
  have hparse := parseBody_encoded_false ci mi trail htrail
  have hbr := greedyScan_bracket _ _ hbody hparse
  have hscan := greedyScan_append hd _ _ _ hbr
  rw [List.append_nil] at hscan
  have hlen : ¬ (decRepr mi).length ≤ 16 := by omega
  simp [maybeAttachToThreadChannel, hname, hscan, List.dropLast_concat,
    decValOf_decRepr, hlen, decParse_decRepr]

theorem creationTopic_shape (uid ci mi : Nat) :
    creationTopic uid ci mi =
      ("Thread started by <@".data ++ decRepr uid ++ "> for ".data) ++
      '[' :: '<' :: '#' :: (decRepr ci ++ '>' :: '/' ::
        (decRepr mi ++ '*' :: ']' :: ['.'])) := by
  have l1 : "> for [<#".data = "> for ".data ++ ['[', '<', '#'] := by decide
  have l2 : ">/".data = ['>', '/'] := by decide
  have l3 : "*].".data = ['*', ']', '.'] := by decide
  simp [creationTopic, l1, l2, l3]

theorem topicUpdate_shape_true (hd : List Char) (ci mi : Nat) :
    topicUpdate hd ci mi true =
      hd ++ '[' :: '<' :: '#' :: (decRepr ci ++ '>' :: '/' ::
        (decRepr mi ++ '*' :: ']' :: ([] : List Char))) := by
  have l1 : "[<#".data = ['[', '<', '#'] := by decide
  have l2 : ">/".data = ['>', '/'] := by decide
  have l3 : "]".data = [']'] := by decide
  simp [topicUpdate, l1, l2, l3]

theorem topicUpdate_shape_false (hd : List Char) (ci mi : Nat) :
    topicUpdate hd ci mi false =
      hd ++ '[' :: '<' :: '#' :: (decRepr ci ++ '>' :: '/' ::
        (decRepr mi ++ ']' :: ([] : List Char))) := by
  have l1 : "[<#".data = ['[', '<', '#'] := by decide
  have l2 : ">/".data = ['>', '/'] := by decide
  have l3 : "]".data = [']'] := by decide
  simp [topicUpdate, l1, l2, l3]

/-- C6 (amended): the naming/topic codec round-trips for every origin
whose item id has a decimal representation longer than 16 characters —
which is every real Discord snowflake — under both encoders: the
creation topic (whose `new_to_author` flag is always `*`) and the
update-path topic with either flag value and any `[`-free prefix.  The
generated channel name always carries the `🧵` marker the decoder
requires.  For shorter ids `decode` reparses the decimal `mref` as
hexadecimal (`int(mref, 16)` when `len(mref) <= 16`, a backward-compat
heuristic for the older hex encoder) and the round-trip fails — see the
counterexample. -/
theorem codec_roundtrip_long_ids (uid ci mi : Nat) (flag : Bool)
    (words existing : List (List Char)) (hd : List Char)
    (hmi : 16 < (decRepr mi).length) (hhd : '[' ∉ hd) :
    maybeAttachToThreadChannel CType.text (channelName words existing)
      (creationTopic uid ci mi) = some (ci, mi, true) ∧
    maybeAttachToThreadChannel CType.text (channelName words existing)
      (topicUpdate hd ci mi flag) = some (ci, mi, flag) := by
  constructor
  · rw [creationTopic_shape]
    have hhd1 : '[' ∉ ("Thread started by <@".data ++ decRepr uid ++ "> for ".data) := by
      intro hm
      rcases List.mem_append.mp hm with hm | hm
      · rcases List.mem_append.mp hm with hm | hm
        · revert hm
          decide
        · exact not_bracket_digits uid hm
      · revert hm
        decide
    exact attach_encoded_true _ _ ['.'] ci mi
      (channelName_head words existing) hhd1 hmi (by decide)
  · cases flag with
    | true =>
        rw [topicUpdate_shape_true]
        exact attach_encoded_true _ _ [] ci mi
          (channelName_head words existing) hhd hmi (by decide)
    | false =>
        rw [topicUpdate_shape_false]
        exact attach_encoded_false _ _ [] ci mi
          (channelName_head words existing) hhd hmi (by decide)


/-- C6 (as stated, counterexample): encoding origin (5, 10) writes the
decimal `10` into the topic, but decode sees a 2-character `mref` and
parses it as hexadecimal, returning item id 16 — so decoding the encoded
pair does not yield the same origin reference for small item ids. -/
theorem codec_roundtrip_fails_small_id :
    maybeAttachToThreadChannel CType.text (channelName [] [])
      (creationTopic 7 5 10) = some (5, 16, true) ∧
    maybeAttachToThreadChannel CType.text (channelName [] [])
      (creationTopic 7 5 10) ≠ some (5, 10, true) :=
  ⟨by decide, by decide⟩

/-- Witness for C6 at the 17-digit id 10^16: both encoders round-trip. -/
theorem codec_roundtrip_long_ids_witness :
    16 < (decRepr 10000000000000000).length ∧
    ('[' ∉ "x".data) ∧
    maybeAttachToThreadChannel CType.text (channelName [] [])
      (creationTopic 7 5 10000000000000000) = some (5, 10000000000000000, true) ∧
    maybeAttachToThreadChannel CType.text (channelName [] [])
      (topicUpdate "x".data 5 10000000000000000 false) =
      some (5, 10000000000000000, false) :=
  ⟨by decide, by decide,
    (codec_roundtrip_long_ids 7 5 10000000000000000 false [] [] "x".data
      (by decide) (by decide)).1,
    (codec_roundtrip_long_ids 7 5 10000000000000000 false [] [] "x".data
      (by decide) (by decide)).2⟩


end ER
